import Mathlib

/-!
GrafoDisperso: a CSR graph with depth-bounded BFS.

A shallow embedding of `GrafoDisperso.cpp` / `GrafoDisperso.h`.

Modelling conventions.

* Every C++ `int` is an `Int`.  No arithmetic is performed on the external
  identifiers (they are only compared); the only arithmetic is on container
  sizes, offsets and BFS distances, all bounded by the size of the input.  The
  embedding describes runs whose container sizes fit in an `int`.
* `std::vector<T>` is a `List T`; `v[i]` with an `int` index is `vecGet v i`,
  `v[i] = x` is `vecSet v i x`.  Out-of-range accesses are undefined in the
  source; the embedding reads `0` and ignores the write.
* `std::set<int>` is the ascending list of its elements, `std::map<int,int>` the
  list of its entries in ascending key order.
* The file reader of `cargarDatos` is represented by its outcome: `none` when
  the file could not be opened, `some aristas` with the pairs that the reading
  loop pushed into `aristas` otherwise.
* The `while (!cola.empty())` loop of `BFS` is iterated with an explicit bound
  on the number of iterations; running out of iterations yields `none`.
-/

namespace Grafo

/-! ## Containers -/

/-- Element read `v[i]` of a `std::vector<int>` with an `int` index. -/
def vecGet (v : List Int) (i : Int) : Int := v.getD i.toNat 0

/-- Element write `v[i] = x` of a `std::vector<int>` with an `int` index. -/
def vecSet (v : List Int) (i : Int) (x : Int) : List Int := v.set i.toNat x

/-- Resizing `v.resize(n)`: truncates, or pads with value-initialised elements. -/
def resize (v : List Int) (n : Nat) : List Int :=
  v.take n ++ List.replicate (n - v.length) 0

/-- Insertion `s.insert(x)` into a `std::set<int>`. -/
def setInsert (x : Int) : List Int → List Int
  | [] => [x]
  | y :: ys =>
    if x < y then x :: y :: ys
    else if x = y then y :: ys
    else y :: setInsert x ys

/-- Assignment `m[k] = v` on a `std::map<int,int>`. -/
def mapAssign (k v : Int) : List (Int × Int) → List (Int × Int)
  | [] => [(k, v)]
  | e :: m =>
    if k < e.1 then (k, v) :: e :: m
    else if k = e.1 then (k, v) :: m
    else e :: mapAssign k v m

/-- Lookup `m.find(k)` on a `std::map<int,int>`; `none` stands for `m.end()`. -/
def mapFind (k : Int) : List (Int × Int) → Option Int
  | [] => none
  | e :: m => if k = e.1 then some e.2 else mapFind k m

/-- Sorting `std::sort(v.begin(), v.end())` of a vector of `int`. -/
def sortInts (v : List Int) : List Int := v.insertionSort (· ≤ ·)

/-- Removal of consecutive repetitions,
`v.erase(std::unique(v.begin(), v.end()), v.end())`. -/
def unique : List Int → List Int
  | [] => []
  | [x] => [x]
  | x :: y :: rest => if x = y then unique (y :: rest) else x :: unique (y :: rest)

/-- The operation `lista[i].push_back(x)` on a vector of vectors. -/
def pushAt (lista : List (List Int)) (i : Int) (x : Int) : List (List Int) :=
  lista.modify (fun v => v ++ [x]) i.toNat

/-! ## The graph -/

/-- The data members of the class `GrafoDisperso`. -/
structure GrafoDisperso where
  row_ptr : List Int
  col_indices : List Int
  numNodos : Int
  numAristas : Int
  nodoAIndice : List (Int × Int)
  indiceANodo : List Int
deriving DecidableEq

/-- The constructor `GrafoDisperso::GrafoDisperso()`. -/
def nuevo : GrafoDisperso :=
  { row_ptr := [], col_indices := [], numNodos := 0, numAristas := 0,
    nodoAIndice := [], indiceANodo := [] }

/-- The method `GrafoDisperso::nodoAIdx`. -/
def nodoAIdx (g : GrafoDisperso) (nodoId : Int) : Int :=
  match mapFind nodoId g.nodoAIndice with
  | some i => i
  | none => -1

/-- The method `GrafoDisperso::idxANodo`. -/
def idxANodo (g : GrafoDisperso) (idx : Int) : Int :=
  if 0 ≤ idx ∧ idx < (g.indiceANodo.length : Int) then vecGet g.indiceANodo idx else -1

/-- First loop of `construirCSR`: the temporary adjacency lists. -/
def listaAdyacencia (g : GrafoDisperso) (aristas : List (Int × Int)) : List (List Int) :=
  aristas.foldl
    (fun lista arista =>
      let origenIdx := nodoAIdx g arista.1
      let destinoIdx := nodoAIdx g arista.2
      pushAt lista origenIdx destinoIdx)
    (List.replicate g.numNodos.toNat [])

/-- One iteration of the last loop of `construirCSR`, on `(row_ptr, col_indices)`. -/
def csrPaso (lista : List (List Int)) (rc : List Int × List Int) (i : Nat) :
    List Int × List Int :=
  let vecinos := lista.getD i []
  (vecSet rc.1 ((i : Int) + 1) (vecGet rc.1 i + (vecinos.length : Int)), rc.2 ++ vecinos)

/-- The method `GrafoDisperso::construirCSR`. -/
def construirCSR (g : GrafoDisperso) (aristas : List (Int × Int)) : GrafoDisperso :=
  let lista := (listaAdyacencia g aristas).map (fun vecinos => unique (sortInts vecinos))
  let row0 := vecSet (resize g.row_ptr (g.numNodos + 1).toNat) 0 0
  let rc := (List.range g.numNodos.toNat).foldl (csrPaso lista) (row0, g.col_indices)
  { g with row_ptr := rc.1, col_indices := rc.2 }

/-- The set `nodosUnicos` collected by the reading loop of `cargarDatos`. -/
def nodosUnicos (aristas : List (Int × Int)) : List Int :=
  aristas.foldl (fun s arista => setInsert arista.2 (setInsert arista.1 s)) []

/-- One iteration of the identifier-mapping loop of `cargarDatos`, on `(graph, idx)`. -/
def mapeoPaso (gi : GrafoDisperso × Int) (nodo : Int) : GrafoDisperso × Int :=
  ({ gi.1 with
      nodoAIndice := mapAssign nodo gi.2 gi.1.nodoAIndice,
      indiceANodo := gi.1.indiceANodo ++ [nodo] },
   gi.2 + 1)

/-- The method `GrafoDisperso::cargarDatos`; `archivo` is `none` when the file
cannot be opened and otherwise holds the pairs read from it. -/
def cargarDatos (g : GrafoDisperso) (archivo : Option (List (Int × Int))) :
    Bool × GrafoDisperso :=
  match archivo with
  | none => (false, g)
  | some aristas =>
    let unicos := nodosUnicos aristas
    let g1 := { g with numAristas := (aristas.length : Int), numNodos := (unicos.length : Int) }
    let g2 := (unicos.foldl mapeoPaso (g1, 0)).1
    (true, construirCSR g2 aristas)

/-- The graph obtained by one load of `aristas` on a freshly constructed graph. -/
def cargar (aristas : List (Int × Int)) : GrafoDisperso :=
  (cargarDatos nuevo (some aristas)).2

/-! ## Queries -/

/-- The local variables of `BFS` that the traversal loop updates. -/
structure BFSEstado where
  distancia : List Int
  cola : List Int
  resultado : List (Int × Int)
deriving DecidableEq

/-- Body of the inner `for` loop of `BFS` at position `i` of `col_indices`. -/
def visitar (g : GrafoDisperso) (distActual : Int) (st : BFSEstado) (i : Int) : BFSEstado :=
  let vecinoIdx := vecGet g.col_indices i
  if vecGet st.distancia vecinoIdx = -1 then
    { distancia := vecSet st.distancia vecinoIdx (distActual + 1),
      cola := st.cola ++ [vecinoIdx],
      resultado := st.resultado ++ [(idxANodo g vecinoIdx, distActual + 1)] }
  else st

/-- The positions `inicio, inicio + 1, ..., fin - 1` of a loop
`for (int i = inicio; i < fin; i++)`. -/
def posiciones (inicio fin : Int) : List Int :=
  (List.range (fin - inicio).toNat).map (fun (k : Nat) => inicio + (k : Int))

/-- Body of the `while` loop of `BFS` once `actualIdx` has been popped. -/
def expandir (g : GrafoDisperso) (profundidadMaxima : Int) (st : BFSEstado) (actualIdx : Int) :
    BFSEstado :=
  let distActual := vecGet st.distancia actualIdx
  if distActual ≥ profundidadMaxima then st
  else
    let inicio := vecGet g.row_ptr actualIdx
    let fin := vecGet g.row_ptr (actualIdx + 1)
    (posiciones inicio fin).foldl (visitar g distActual) st

/-- The loop `while (!cola.empty())` of `BFS`, run for at most `pasos` iterations. -/
def bfsBucle (g : GrafoDisperso) (profundidadMaxima : Int) : Nat → BFSEstado → Option BFSEstado
  | pasos, st =>
    match st.cola with
    | [] => some st
    | actualIdx :: resto =>
      match pasos with
      | 0 => none
      | pasos + 1 =>
        bfsBucle g profundidadMaxima pasos
          (expandir g profundidadMaxima { st with cola := resto } actualIdx)

/-- The method `GrafoDisperso::BFS`, its loop run for at most `pasos` iterations. -/
def BFS (g : GrafoDisperso) (nodoInicio profundidadMaxima : Int) (pasos : Nat) :
    Option (List (Int × Int)) :=
  let inicioIdx := nodoAIdx g nodoInicio
  if inicioIdx = -1 then some []
  else
    let distancia := List.replicate g.numNodos.toNat (-1 : Int)
    let st : BFSEstado :=
      { distancia := vecSet distancia inicioIdx 0,
        cola := [inicioIdx],
        resultado := [(nodoInicio, 0)] }
    (bfsBucle g profundidadMaxima pasos st).map (fun s => s.resultado)

/-- The method `GrafoDisperso::obtenerGrado`. -/
def obtenerGrado (g : GrafoDisperso) (nodo : Int) : Int :=
  let idx := nodoAIdx g nodo
  if idx = -1 then 0
  else vecGet g.row_ptr (idx + 1) - vecGet g.row_ptr idx

/-- The method `GrafoDisperso::getVecinos`. -/
def getVecinos (g : GrafoDisperso) (nodo : Int) : List Int :=
  let idx := nodoAIdx g nodo
  if idx = -1 then []
  else
    let inicio := vecGet g.row_ptr idx
    let fin := vecGet g.row_ptr (idx + 1)
    (posiciones inicio fin).foldl (fun vecinos i => vecinos ++ [idxANodo g (vecGet g.col_indices i)]) []

/-- The method `GrafoDisperso::getNumNodos`. -/
def getNumNodos (g : GrafoDisperso) : Int := g.numNodos

/-- The method `GrafoDisperso::getNumAristas`. -/
def getNumAristas (g : GrafoDisperso) : Int := g.numAristas

/-- One iteration of the scan of `getNodoMayorGrado`, on `(nodoMaxGrado, maxGrado)`. -/
def mayorPaso (g : GrafoDisperso) (nm : Int × Int) (i : Nat) : Int × Int :=
  let grado := vecGet g.row_ptr ((i : Int) + 1) - vecGet g.row_ptr i
  if grado > nm.2 then (idxANodo g i, grado) else nm

/-- The method `GrafoDisperso::getNodoMayorGrado`. -/
def getNodoMayorGrado (g : GrafoDisperso) : Int × Int :=
  (List.range g.numNodos.toNat).foldl (mayorPaso g) (-1, 0)

/-- The method `GrafoDisperso::getTodasLasAristas`. -/
def getTodasLasAristas (g : GrafoDisperso) : List (Int × Int) :=
  (List.range g.numNodos.toNat).foldl
    (fun aristas (i : Nat) =>
      let nodoOrigen := idxANodo g (i : Int)
      let inicio := vecGet g.row_ptr (i : Int)
      let fin := vecGet g.row_ptr ((i : Int) + 1)
      (posiciones inicio fin).foldl
        (fun acc j => acc ++ [(nodoOrigen, idxANodo g (vecGet g.col_indices j))]) aristas)
    []

/-! ## Reference notions on the input pairs -/

/-- An identifier occurs in the edge list, as an origin or as a destination. -/
def EsNodo (aristas : List (Int × Int)) (x : Int) : Prop :=
  ∃ a ∈ aristas, a.1 = x ∨ a.2 = x

instance instDecidableEsNodo (aristas : List (Int × Int)) (x : Int) :
    Decidable (EsNodo aristas x) :=
  inferInstanceAs (Decidable (∃ a ∈ aristas, a.1 = x ∨ a.2 = x))

/-- A walk of `n` hops in the directed graph formed by the input pairs. -/
inductive Camino (aristas : List (Int × Int)) (x : Int) : Int → Nat → Prop
  | inicio : EsNodo aristas x → Camino aristas x x 0
  | paso (y z : Int) (n : Nat) : Camino aristas x y n → (y, z) ∈ aristas →
      Camino aristas x z (n + 1)

/-- The number `d` is the shortest hop count from `x` to `y`. -/
def DistanciaMinima (aristas : List (Int × Int)) (x y : Int) (d : Int) : Prop :=
  (∃ n : Nat, (n : Int) = d ∧ Camino aristas x y n) ∧
    ∀ k : Nat, Camino aristas x y k → d ≤ (k : Int)

/-! ## Auxiliary notions used in the proofs -/

/-- State of a fresh graph right before `construirCSR` is called. -/
def conMapeo (aristas : List (Int × Int)) : GrafoDisperso :=
  ((nodosUnicos aristas).foldl mapeoPaso
    ({ nuevo with numAristas := (aristas.length : Int),
                  numNodos := ((nodosUnicos aristas).length : Int) }, 0)).1

/-- Lengths of the first `j` adjacency lists, added up: the CSR offset of row `j`. -/
def desplazamiento (lista : List (List Int)) (j : Nat) : Nat := ((lista.take j).flatten).length

/-- The sorted, duplicate-free adjacency lists that `construirCSR` lays out for a
fresh graph. -/
def listaCSR (aristas : List (Int × Int)) : List (List Int) :=
  (listaAdyacencia (conMapeo aristas) aristas).map (fun vecinos => unique (sortInts vecinos))

/-- The slice of `col_indices` that belongs to row `i`. -/
def vecinosIdx (g : GrafoDisperso) (i : Int) : List Int :=
  (posiciones (vecGet g.row_ptr i) (vecGet g.row_ptr (i + 1))).map (vecGet g.col_indices)

/-- Out-degree of the internal index `i`, as read off `row_ptr`. -/
def gradoIdx (g : GrafoDisperso) (i : Nat) : Int :=
  vecGet g.row_ptr ((i : Int) + 1) - vecGet g.row_ptr i

/-- What the scan of `getNodoMayorGrado` has established after `n` indices. -/
def MayorHasta (g : GrafoDisperso) (n : Nat) (nm : Int × Int) : Prop :=
  (nm = (-1, 0) ∧ ∀ i, i < n → gradoIdx g i ≤ 0) ∨
  (∃ i0, i0 < n ∧ nm = (idxANodo g i0, gradoIdx g i0) ∧ 0 < gradoIdx g i0 ∧
    (∀ i, i < n → gradoIdx g i ≤ gradoIdx g i0) ∧ (∀ i, i < i0 → gradoIdx g i < gradoIdx g i0))

/-- Body of the inner loop of `BFS`, as a function of the neighbour index read
from `col_indices`. -/
def descubrir (g : GrafoDisperso) (distActual : Int) (st : BFSEstado) (vecinoIdx : Int) :
    BFSEstado :=
  if vecGet st.distancia vecinoIdx = -1 then
    { distancia := vecSet st.distancia vecinoIdx (distActual + 1),
      cola := st.cola ++ [vecinoIdx],
      resultado := st.resultado ++ [(idxANodo g vecinoIdx, distActual + 1)] }
  else st

/-- Facts about the distance array and the result of `BFS` on the graph loaded
from `es`, started at the identifier `xs` with depth bound `D`; `orden` lists the
indices discovered so far, in discovery order. -/
structure Base (es : List (Int × Int)) (xs D : Int) (dist : List Int)
    (res : List (Int × Int)) (orden : List Int) : Prop where
  nodup : orden.Nodup
  rango : ∀ v ∈ orden, 0 ≤ v ∧ v < ((nodosUnicos es).length : Int)
  visto : ∀ v : Int, 0 ≤ v → v < ((nodosUnicos es).length : Int) →
    (vecGet dist v ≠ -1 ↔ v ∈ orden)
  largo : dist.length = (nodosUnicos es).length
  res_eq : res = orden.map (fun v => (idxANodo (cargar es) v, vecGet dist v))
  camino : ∀ v ∈ orden, ∃ n : Nat, (n : Int) = vecGet dist v ∧
    Camino es xs (idxANodo (cargar es) v) n
  minimo : ∀ v ∈ orden, ∀ k : Nat, Camino es xs (idxANodo (cargar es) v) k →
    vecGet dist v ≤ (k : Int)
  creciente : orden.Pairwise (fun a b => vecGet dist a ≤ vecGet dist b)
  escalon : (orden.map (vecGet dist)).Chain' (fun a b => b ≤ a + 1)
  cabeza : orden.head? = some (nodoAIdx (cargar es) xs)
  tope : ∀ v ∈ orden, vecGet dist v ≤ D ∨ v = nodoAIdx (cargar es) xs

/-- Invariant of the `while` loop of `BFS`: `hecho` lists the indices already
popped, so that the discovery order is `hecho ++ st.cola`. -/
structure Inv (es : List (Int × Int)) (xs D : Int) (st : BFSEstado) (hecho : List Int) :
    Prop where
  base : Base es xs D st.distancia st.resultado (hecho ++ st.cola)
  expandido : ∀ x ∈ hecho, vecGet st.distancia x < D →
    ∀ w ∈ vecinosIdx (cargar es) x, w ∈ hecho ++ st.cola
  ventana : ∀ x ∈ st.cola, ∀ y ∈ st.cola, vecGet st.distancia y ≤ vecGet st.distancia x + 1

/-- Invariant of the inner `for` loop of `BFS` while the index `u`, at distance
`d`, is expanded; `pend` lists the neighbours still to be scanned. -/
structure InvIn (es : List (Int × Int)) (xs D : Int) (st : BFSEstado) (hecho : List Int)
    (u d : Int) (pend : List Int) : Prop where
  base : Base es xs D st.distancia st.resultado (hecho ++ u :: st.cola)
  expandido : ∀ x ∈ hecho, vecGet st.distancia x < D →
    ∀ w ∈ vecinosIdx (cargar es) x, w ∈ hecho ++ u :: st.cola
  nivel_eq : vecGet st.distancia u = d
  nivel : d < D
  pendiente : ∀ w ∈ vecinosIdx (cargar es) u, w ∈ pend ∨ w ∈ hecho ++ u :: st.cola
  pend_sub : ∀ w ∈ pend, w ∈ vecinosIdx (cargar es) u
  ventana : ∀ y ∈ st.cola, vecGet st.distancia y ≤ d + 1

/-- Strict lexicographic order on pairs `(origin, destination)`. -/
def LexMenor (p q : Int × Int) : Prop :=
  p.1 < q.1 ∨ (p.1 = q.1 ∧ p.2 < q.2)

/-- State of the graph `g` right before `construirCSR` is called during a
successful load of `aristas`. -/
def trasMapeo (g : GrafoDisperso) (aristas : List (Int × Int)) : GrafoDisperso :=
  ((nodosUnicos aristas).foldl mapeoPaso
    ({ g with numAristas := (aristas.length : Int),
              numNodos := ((nodosUnicos aristas).length : Int) }, 0)).1

/-! ## Lemmas and theorems -/

theorem setInsert_mem (x y : Int) (s : List Int) : y ∈ setInsert x s ↔ y = x ∨ y ∈ s := by
  induction s with
  | nil => simp [setInsert]
  | cons z zs ih =>
    unfold setInsert
    split_ifs with h1 h2
    · simp
    · subst h2; simp
    · simp [ih]; tauto

theorem setInsert_sorted (x : Int) (s : List Int) (hs : s.Sorted (· < ·)) :
    (setInsert x s).Sorted (· < ·) := by
  induction s with
  | nil => simp [setInsert]
  | cons z zs ih =>
    unfold setInsert
    have hz := List.sorted_cons.1 hs
    split_ifs with h1 h2
    · refine List.sorted_cons.2 ⟨?_, hs⟩
      intro b hb
      rcases List.mem_cons.1 hb with rfl | hb
      · exact h1
      · exact lt_trans h1 (hz.1 b hb)
    · exact hs
    · refine List.sorted_cons.2 ⟨?_, ih hz.2⟩
      intro b hb
      rcases (setInsert_mem x b zs).1 hb with rfl | hb
      · omega
      · exact hz.1 b hb

theorem nodosUnicos_aux (es : List (Int × Int)) (s : List Int) (hs : s.Sorted (· < ·)) :
    (es.foldl (fun s arista => setInsert arista.2 (setInsert arista.1 s)) s).Sorted (· < ·) ∧
    ∀ x, x ∈ es.foldl (fun s arista => setInsert arista.2 (setInsert arista.1 s)) s ↔
      (x ∈ s ∨ EsNodo es x) := by
  induction es generalizing s with
  | nil => simp [EsNodo, hs]
  | cons e es ih =>
    simp only [List.foldl_cons]
    have h1 := ih (setInsert e.2 (setInsert e.1 s)) (setInsert_sorted _ _ (setInsert_sorted _ _ hs))
    refine ⟨h1.1, fun x => ?_⟩
    rw [h1.2 x, setInsert_mem, setInsert_mem]
    simp only [EsNodo, List.mem_cons, exists_eq_or_imp]
    constructor
    · rintro ((h | h | h) | h)
      · exact Or.inr (Or.inl (Or.inr h.symm))
      · exact Or.inr (Or.inl (Or.inl h.symm))
      · exact Or.inl h
      · exact Or.inr (Or.inr h)
    · rintro (h | (h | h) | h)
      · exact Or.inl (Or.inr (Or.inr h))
      · exact Or.inl (Or.inr (Or.inl h.symm))
      · exact Or.inl (Or.inl h.symm)
      · exact Or.inr h

theorem nodosUnicos_sorted (es : List (Int × Int)) : (nodosUnicos es).Sorted (· < ·) :=
  (nodosUnicos_aux es [] List.sorted_nil).1

theorem mem_nodosUnicos (es : List (Int × Int)) (x : Int) : x ∈ nodosUnicos es ↔ EsNodo es x := by
  have := (nodosUnicos_aux es [] List.sorted_nil).2 x
  simpa [nodosUnicos] using this

theorem nodosUnicos_nodup (es : List (Int × Int)) : (nodosUnicos es).Nodup :=
  (nodosUnicos_sorted es).nodup

theorem mapFind_mapAssign (k k2 v : Int) (m : List (Int × Int)) :
    mapFind k (mapAssign k2 v m) = if k = k2 then some v else mapFind k m := by
  induction m with
  | nil => simp [mapAssign, mapFind]
  | cons e m ih =>
    unfold mapAssign
    split_ifs with h1 h2 h3 h4 h5
    · simp [mapFind, h2]
    · simp [mapFind, h2]
    · subst h3; subst h4; simp [mapFind]
    · subst h3; simp [mapFind, h4]
    · subst h5
      have : ¬ k = e.1 := by omega
      simp [mapFind, this, ih]
    · simp [mapFind, ih, h5]

theorem cargar_eq (es : List (Int × Int)) : cargar es = construirCSR (conMapeo es) es := rfl

theorem mapeo_fold (l : List Int) (g : GrafoDisperso) (k : Int) :
    (l.foldl mapeoPaso (g, k)).1.indiceANodo = g.indiceANodo ++ l ∧
    (l.foldl mapeoPaso (g, k)).1.numNodos = g.numNodos ∧
    (l.foldl mapeoPaso (g, k)).1.numAristas = g.numAristas ∧
    (l.foldl mapeoPaso (g, k)).1.row_ptr = g.row_ptr ∧
    (l.foldl mapeoPaso (g, k)).1.col_indices = g.col_indices ∧
    (∀ x, x ∉ l → mapFind x (l.foldl mapeoPaso (g, k)).1.nodoAIndice = mapFind x g.nodoAIndice) ∧
    (l.Nodup → ∀ i (h : i < l.length),
      mapFind (l.get ⟨i, h⟩) (l.foldl mapeoPaso (g, k)).1.nodoAIndice = some (k + i)) := by
  induction l generalizing g k with
  | nil => simp
  | cons a l ih =>
    simp only [List.foldl_cons]
    obtain ⟨h1, h2, h3, h4, h5, h6, h7⟩ := ih (mapeoPaso (g, k) a).1 (mapeoPaso (g, k) a).2
    refine ⟨?_, ?_, ?_, ?_, ?_, ?_, ?_⟩
    · rw [h1]; simp [mapeoPaso]
    · rw [h2]; simp [mapeoPaso]
    · rw [h3]; simp [mapeoPaso]
    · rw [h4]; simp [mapeoPaso]
    · rw [h5]; simp [mapeoPaso]
    · intro x hx
      simp only [List.mem_cons, not_or] at hx
      rw [h6 x hx.2]
      simp [mapeoPaso, mapFind_mapAssign, hx.1]
    · intro hnd i hi
      have hnd2 := List.nodup_cons.1 hnd
      cases i with
      | zero =>
        simp only [List.get_eq_getElem, List.getElem_cons_zero]
        rw [h6 a hnd2.1]
        simp [mapeoPaso, mapFind_mapAssign]
      | succ i =>
        have hi2 : i < l.length := by simpa using hi
        have := h7 hnd2.2 i hi2
        simp only [List.get_eq_getElem, List.getElem_cons_succ] at this ⊢
        rw [this]
        simp [mapeoPaso]
        omega

theorem conMapeo_indiceANodo (es : List (Int × Int)) :
    (conMapeo es).indiceANodo = nodosUnicos es := by
  have := (mapeo_fold (nodosUnicos es) { nuevo with numAristas := (es.length : Int), numNodos := ((nodosUnicos es).length : Int) } 0).1
  simpa [conMapeo, nuevo] using this

theorem conMapeo_numNodos (es : List (Int × Int)) :
    (conMapeo es).numNodos = ((nodosUnicos es).length : Int) := by
  have := (mapeo_fold (nodosUnicos es) { nuevo with numAristas := (es.length : Int), numNodos := ((nodosUnicos es).length : Int) } 0).2.1
  simpa [conMapeo, nuevo] using this

theorem conMapeo_numAristas (es : List (Int × Int)) :
    (conMapeo es).numAristas = (es.length : Int) := by
  have := (mapeo_fold (nodosUnicos es) { nuevo with numAristas := (es.length : Int), numNodos := ((nodosUnicos es).length : Int) } 0).2.2.1
  simpa [conMapeo, nuevo] using this

theorem conMapeo_row_ptr (es : List (Int × Int)) : (conMapeo es).row_ptr = [] := by
  have := (mapeo_fold (nodosUnicos es) { nuevo with numAristas := (es.length : Int), numNodos := ((nodosUnicos es).length : Int) } 0).2.2.2.1
  simpa [conMapeo, nuevo] using this

theorem conMapeo_col_indices (es : List (Int × Int)) : (conMapeo es).col_indices = [] := by
  have := (mapeo_fold (nodosUnicos es) { nuevo with numAristas := (es.length : Int), numNodos := ((nodosUnicos es).length : Int) } 0).2.2.2.2.1
  simpa [conMapeo, nuevo] using this

theorem conMapeo_find_none (es : List (Int × Int)) (x : Int) (hx : ¬ EsNodo es x) :
    mapFind x (conMapeo es).nodoAIndice = none := by
  have := (mapeo_fold (nodosUnicos es) { nuevo with numAristas := (es.length : Int), numNodos := ((nodosUnicos es).length : Int) } 0).2.2.2.2.2.1 x
    (by rw [mem_nodosUnicos]; exact hx)
  simpa [conMapeo, nuevo, mapFind] using this

theorem conMapeo_find_get (es : List (Int × Int)) (i : Nat) (h : i < (nodosUnicos es).length) :
    mapFind ((nodosUnicos es).get ⟨i, h⟩) (conMapeo es).nodoAIndice = some (i : Int) := by
  have := (mapeo_fold (nodosUnicos es) { nuevo with numAristas := (es.length : Int), numNodos := ((nodosUnicos es).length : Int) } 0).2.2.2.2.2.2
    (nodosUnicos_nodup es) i h
  simpa [conMapeo, nuevo] using this

/-! The fields that `construirCSR` leaves alone. -/

theorem construirCSR_nodoAIndice (g : GrafoDisperso) (es : List (Int × Int)) :
    (construirCSR g es).nodoAIndice = g.nodoAIndice := rfl

theorem construirCSR_indiceANodo (g : GrafoDisperso) (es : List (Int × Int)) :
    (construirCSR g es).indiceANodo = g.indiceANodo := rfl

theorem construirCSR_numNodos (g : GrafoDisperso) (es : List (Int × Int)) :
    (construirCSR g es).numNodos = g.numNodos := rfl

theorem construirCSR_numAristas (g : GrafoDisperso) (es : List (Int × Int)) :
    (construirCSR g es).numAristas = g.numAristas := rfl

theorem cargar_indiceANodo (es : List (Int × Int)) :
    (cargar es).indiceANodo = nodosUnicos es := by
  rw [cargar_eq, construirCSR_indiceANodo, conMapeo_indiceANodo]

theorem cargar_numNodos (es : List (Int × Int)) :
    (cargar es).numNodos = ((nodosUnicos es).length : Int) := by
  rw [cargar_eq, construirCSR_numNodos, conMapeo_numNodos]

theorem cargar_numAristas (es : List (Int × Int)) :
    (cargar es).numAristas = (es.length : Int) := by
  rw [cargar_eq, construirCSR_numAristas, conMapeo_numAristas]

theorem nodoAIdx_conMapeo (es : List (Int × Int)) (x : Int) :
    nodoAIdx (conMapeo es) x = nodoAIdx (cargar es) x := rfl

theorem nodoAIdx_none (es : List (Int × Int)) (x : Int) (hx : ¬ EsNodo es x) :
    nodoAIdx (cargar es) x = -1 := by
  rw [← nodoAIdx_conMapeo]; unfold nodoAIdx; rw [conMapeo_find_none es x hx]

theorem nodoAIdx_get (es : List (Int × Int)) (i : Nat) (h : i < (nodosUnicos es).length) :
    nodoAIdx (cargar es) ((nodosUnicos es).get ⟨i, h⟩) = (i : Int) := by
  rw [← nodoAIdx_conMapeo]; unfold nodoAIdx; rw [conMapeo_find_get es i h]

/-- A known identifier has an index in range, and the index leads back to it. -/
theorem nodoAIdx_known (es : List (Int × Int)) (x : Int) (hx : EsNodo es x) :
    ∃ i : Nat, ∃ h : i < (nodosUnicos es).length,
      (nodosUnicos es).get ⟨i, h⟩ = x ∧ nodoAIdx (cargar es) x = (i : Int) := by
  have hm := (mem_nodosUnicos es x).2 hx
  obtain ⟨⟨i, hi⟩, hget⟩ := List.mem_iff_get.1 hm
  refine ⟨i, hi, hget, ?_⟩
  rw [← hget]; exact nodoAIdx_get es i hi

theorem idxANodo_get (es : List (Int × Int)) (i : Nat) (h : i < (nodosUnicos es).length) :
    idxANodo (cargar es) (i : Int) = (nodosUnicos es).get ⟨i, h⟩ := by
  unfold idxANodo vecGet
  rw [cargar_indiceANodo]
  have : (0 : Int) ≤ (i : Int) ∧ (i : Int) < ((nodosUnicos es).length : Int) := ⟨by omega, by omega⟩
  rw [if_pos this]
  simp [List.getD_eq_getElem?_getD, List.getElem?_eq_getElem h]

theorem pushAt_length (lista : List (List Int)) (j x : Int) :
    (pushAt lista j x).length = lista.length := by
  simp [pushAt]

theorem pushAt_getD (lista : List (List Int)) (j x : Int) (i : Nat) (hi : i < lista.length) :
    (pushAt lista j x).getD i [] =
      if j.toNat = i then lista.getD i [] ++ [x] else lista.getD i [] := by
  simp only [pushAt, List.getD_eq_getElem?_getD, List.getElem?_modify,
    List.getElem?_eq_getElem hi]
  split_ifs <;> simp

theorem lista_fold (f h : Int × Int → Int) (es : List (Int × Int)) (lista : List (List Int)) :
    (es.foldl (fun l a => pushAt l (f a) (h a)) lista).length = lista.length ∧
    ∀ i, i < lista.length →
      (es.foldl (fun l a => pushAt l (f a) (h a)) lista).getD i [] =
        lista.getD i [] ++ (es.filter (fun a => (f a).toNat = i)).map h := by
  induction es generalizing lista with
  | nil => simp
  | cons e es ih =>
    simp only [List.foldl_cons]
    obtain ⟨h1, h2⟩ := ih (pushAt lista (f e) (h e))
    refine ⟨by rw [h1, pushAt_length], fun i hi => ?_⟩
    rw [h2 i (by rw [pushAt_length]; exact hi), pushAt_getD _ _ _ _ hi]
    by_cases hfe : (f e).toNat = i
    · simp [hfe, List.filter_cons]
    · simp [hfe, List.filter_cons]

theorem mem_unique (x : Int) (l : List Int) : x ∈ unique l ↔ x ∈ l := by
  induction l using unique.induct with
  | case1 => simp [unique]
  | case2 y => simp [unique]
  | case3 a rest ih =>
    rw [unique, if_pos rfl, ih]; simp
  | case4 a b rest hab ih =>
    rw [unique, if_neg hab, List.mem_cons, ih]; simp

theorem unique_sorted (l : List Int) (hl : l.Sorted (· ≤ ·)) : (unique l).Sorted (· < ·) := by
  induction l using unique.induct with
  | case1 => simp [unique]
  | case2 y => simp [unique]
  | case3 a rest ih =>
    rw [unique, if_pos rfl]; exact ih (List.sorted_cons.1 hl).2
  | case4 a b rest hab ih =>
    rw [unique, if_neg hab]
    have h1 := List.sorted_cons.1 hl
    have h2 := List.sorted_cons.1 h1.2
    refine List.sorted_cons.2 ⟨?_, ih h1.2⟩
    intro c hc
    rw [mem_unique] at hc
    rcases List.mem_cons.1 hc with rfl | hc
    · have := h1.1 c (List.mem_cons_self _ _); omega
    · have := h1.1 b (List.mem_cons_self _ _)
      have := h2.1 c hc
      omega

theorem sortInts_sorted (l : List Int) : (sortInts l).Sorted (· ≤ ·) :=
  List.sorted_insertionSort _ l

theorem mem_sortInts (x : Int) (l : List Int) : x ∈ sortInts l ↔ x ∈ l :=
  (List.perm_insertionSort _ l).mem_iff

theorem mem_unique_sort (x : Int) (l : List Int) : x ∈ unique (sortInts l) ↔ x ∈ l := by
  rw [mem_unique, mem_sortInts]

theorem unique_sort_sorted (l : List Int) : (unique (sortInts l)).Sorted (· < ·) :=
  unique_sorted _ (sortInts_sorted l)

theorem take_succ_getD (lista : List (List Int)) (j : Nat) (hj : j < lista.length) :
    lista.take (j + 1) = lista.take j ++ [lista.getD j []] := by
  rw [List.take_succ, List.getElem?_eq_getElem hj, List.getD_eq_getElem?_getD,
    List.getElem?_eq_getElem hj]
  rfl

theorem desplazamiento_succ (lista : List (List Int)) (j : Nat) (hj : j < lista.length) :
    desplazamiento lista (j + 1) = desplazamiento lista j + (lista.getD j []).length := by
  unfold desplazamiento
  rw [take_succ_getD lista j hj]
  simp

theorem vecGet_vecSet (v : List Int) (i j : Nat) (x : Int) (hi : i < v.length) :
    vecGet (vecSet v (i : Int) x) (j : Int) = if j = i then x else vecGet v (j : Int) := by
  unfold vecGet vecSet
  simp only [Int.toNat_ofNat, List.getD_eq_getElem?_getD, List.getElem?_set]
  by_cases h : i = j
  · subst h; simp [hi]
  · have : ¬ j = i := fun e => h e.symm
    simp [h, this]

theorem vecSet_length (v : List Int) (i x : Int) : (vecSet v i x).length = v.length := by
  simp [vecSet]

theorem csr_fold (lista : List (List Int)) (rp0 c0 : List Int) (hlen : rp0.length = lista.length + 1)
    (h0 : vecGet rp0 0 = 0) (n : Nat) (hn : n ≤ lista.length) :
    ((List.range n).foldl (csrPaso lista) (rp0, c0)).1.length = lista.length + 1 ∧
    (∀ j : Nat, j ≤ n →
      vecGet ((List.range n).foldl (csrPaso lista) (rp0, c0)).1 (j : Int) =
        (desplazamiento lista j : Int)) ∧
    ((List.range n).foldl (csrPaso lista) (rp0, c0)).2 = c0 ++ (lista.take n).flatten := by
  induction n with
  | zero =>
    refine ⟨by simpa using hlen, ?_, by simp⟩
    intro j hj
    have : j = 0 := by omega
    subst this
    simpa [desplazamiento] using h0
  | succ n ih =>
    obtain ⟨h1, h2, h3⟩ := ih (by omega)
    rw [List.range_succ, List.foldl_append]
    simp only [List.foldl_cons, List.foldl_nil]
    set rc := (List.range n).foldl (csrPaso lista) (rp0, c0) with hrc
    have hn2 : n < lista.length := by omega
    refine ⟨?_, ?_, ?_⟩
    · simp [csrPaso, vecSet_length, h1]
    · intro j hj
      have e : ((n : Int) + 1) = ((n + 1 : Nat) : Int) := by push_cast; ring
      simp only [csrPaso]
      rw [e, vecGet_vecSet _ _ _ _ (by rw [h1]; omega)]
      by_cases hjn : j = n + 1
      · rw [if_pos hjn, hjn, h2 n (le_refl n), desplazamiento_succ lista n hn2]
        push_cast; ring
      · rw [if_neg hjn]; exact h2 j (by omega)
    · simp only [csrPaso]
      rw [h3, take_succ_getD lista n hn2]
      simp

theorem listaAdyacencia_length (es : List (Int × Int)) :
    (listaAdyacencia (conMapeo es) es).length = (nodosUnicos es).length := by
  unfold listaAdyacencia
  rw [(lista_fold (fun a => nodoAIdx (conMapeo es) a.1) (fun a => nodoAIdx (conMapeo es) a.2) es _).1]
  simp [conMapeo_numNodos]

theorem listaCSR_length (es : List (Int × Int)) :
    (listaCSR es).length = (nodosUnicos es).length := by
  simp [listaCSR, listaAdyacencia_length]

theorem flatten_getD (lista : List (List Int)) (i : Nat) (hi : i < lista.length) (k : Nat)
    (hk : k < (lista.getD i []).length) :
    (lista.flatten).getD (desplazamiento lista i + k) 0 = (lista.getD i []).getD k 0 := by
  induction lista generalizing i with
  | nil => simp at hi
  | cons l ls ih =>
    cases i with
    | zero =>
      simp only [List.getD_cons_zero] at hk
      simp only [desplazamiento, List.take_zero, List.flatten_nil, List.length_nil, zero_add,
        List.flatten_cons, List.getD_cons_zero, List.getD_eq_getElem?_getD]
      rw [List.getElem?_append_left hk]
      simp
    | succ i =>
      have hi2 : i < ls.length := by simpa using hi
      simp only [List.getD_cons_succ] at hk ⊢
      have := ih i hi2 hk
      have e : desplazamiento (l :: ls) (i + 1) = l.length + desplazamiento ls i := by
        simp [desplazamiento]
      rw [e, List.flatten_cons, List.getD_eq_getElem?_getD,
        List.getElem?_append_right (by omega)]
      rw [List.getD_eq_getElem?_getD] at this
      rw [← this]
      congr 2
      omega

theorem range_map_getD (l : List Int) : (List.range l.length).map (fun k => l.getD k 0) = l := by
  apply List.ext_getElem
  · simp
  · intro n h1 h2
    simp [List.getD_eq_getElem?_getD, List.getElem?_eq_getElem h2]

theorem cargar_row_ptr (es : List (Int × Int)) :
    (cargar es).row_ptr =
      ((List.range (nodosUnicos es).length).foldl (csrPaso (listaCSR es))
        (vecSet (resize [] ((nodosUnicos es).length + 1)) 0 0, [])).1 := by
  rw [cargar_eq]
  unfold construirCSR
  simp only [conMapeo_numNodos, conMapeo_row_ptr, conMapeo_col_indices]
  rfl

theorem cargar_col_indices (es : List (Int × Int)) :
    (cargar es).col_indices =
      ((List.range (nodosUnicos es).length).foldl (csrPaso (listaCSR es))
        (vecSet (resize [] ((nodosUnicos es).length + 1)) 0 0, [])).2 := by
  rw [cargar_eq]
  unfold construirCSR
  simp only [conMapeo_numNodos, conMapeo_row_ptr, conMapeo_col_indices]
  rfl

theorem cargar_csr (es : List (Int × Int)) :
    (cargar es).row_ptr.length = (nodosUnicos es).length + 1 ∧
    (∀ j : Nat, j ≤ (nodosUnicos es).length →
      vecGet (cargar es).row_ptr (j : Int) = (desplazamiento (listaCSR es) j : Int)) ∧
    (cargar es).col_indices = (listaCSR es).flatten := by
  have h := csr_fold (listaCSR es) (vecSet (resize [] ((nodosUnicos es).length + 1)) 0 0) []
    (by simp [vecSet_length, resize, listaCSR_length])
    (by simp [vecGet, vecSet, resize, List.replicate_succ])
    (nodosUnicos es).length (by rw [listaCSR_length])
  rw [cargar_row_ptr, cargar_col_indices]
  refine ⟨by rw [h.1, listaCSR_length], h.2.1, ?_⟩
  rw [h.2.2, ← listaCSR_length, List.take_length]
  simp

theorem vecinosIdx_cargar (es : List (Int × Int)) (i : Nat) (hi : i < (nodosUnicos es).length) :
    vecinosIdx (cargar es) (i : Int) = (listaCSR es).getD i [] := by
  obtain ⟨_, h2, h3⟩ := cargar_csr es
  have hi2 : i < (listaCSR es).length := by rw [listaCSR_length]; exact hi
  unfold vecinosIdx posiciones
  have e : ((i : Int) + 1) = ((i + 1 : Nat) : Int) := by push_cast; ring
  rw [e, h2 i (by omega), h2 (i + 1) (by omega), desplazamiento_succ _ _ hi2, h3]
  have e2 : (((desplazamiento (listaCSR es) i + ((listaCSR es).getD i []).length : Nat) : Int) -
      (desplazamiento (listaCSR es) i : Int)).toNat = ((listaCSR es).getD i []).length := by
    push_cast; omega
  rw [e2, List.map_map]
  conv_rhs => rw [← range_map_getD ((listaCSR es).getD i [])]
  apply List.map_congr_left
  intro k hk
  have hk2 : k < ((listaCSR es).getD i []).length := List.mem_range.1 hk
  simp only [Function.comp, vecGet]
  have e3 : ((desplazamiento (listaCSR es) i : Int) + (k : Int)).toNat =
      desplazamiento (listaCSR es) i + k := by omega
  rw [e3]
  exact flatten_getD _ i hi2 k hk2

theorem grado_cargar (es : List (Int × Int)) (i : Nat) (hi : i < (nodosUnicos es).length) :
    vecGet (cargar es).row_ptr ((i : Int) + 1) - vecGet (cargar es).row_ptr (i : Int) =
      (((listaCSR es).getD i []).length : Int) := by
  obtain ⟨_, h2, _⟩ := cargar_csr es
  have hi2 : i < (listaCSR es).length := by rw [listaCSR_length]; exact hi
  have e : ((i : Int) + 1) = ((i + 1 : Nat) : Int) := by push_cast; ring
  rw [e, h2 i (by omega), h2 (i + 1) (by omega), desplazamiento_succ _ _ hi2]
  push_cast; ring

/-- An in-range `int` index is the cast of an in-range natural number. -/
theorem idx_cast (N : Nat) (i : Int) (h0 : 0 ≤ i) (h1 : i < (N : Int)) :
    ∃ j : Nat, j < N ∧ i = (j : Int) :=
  ⟨i.toNat, by omega, by omega⟩

theorem nodoAIdx_rango (es : List (Int × Int)) (x : Int) (hx : EsNodo es x) :
    0 ≤ nodoAIdx (cargar es) x ∧ nodoAIdx (cargar es) x < ((nodosUnicos es).length : Int) ∧
      idxANodo (cargar es) (nodoAIdx (cargar es) x) = x := by
  obtain ⟨i, hi, hget, hidx⟩ := nodoAIdx_known es x hx
  rw [hidx, idxANodo_get es i hi, hget]
  exact ⟨by omega, by omega, rfl⟩

theorem idxANodo_rango (es : List (Int × Int)) (i : Int) (h0 : 0 ≤ i)
    (h1 : i < ((nodosUnicos es).length : Int)) :
    EsNodo es (idxANodo (cargar es) i) ∧ nodoAIdx (cargar es) (idxANodo (cargar es) i) = i := by
  obtain ⟨j, hj, rfl⟩ := idx_cast _ i h0 h1
  rw [idxANodo_get es j hj]
  exact ⟨(mem_nodosUnicos es _).1 (List.get_mem _ _ _), nodoAIdx_get es j hj⟩

theorem idxANodo_inj (es : List (Int × Int)) (i j : Int) (hi0 : 0 ≤ i)
    (hi1 : i < ((nodosUnicos es).length : Int)) (hj0 : 0 ≤ j)
    (hj1 : j < ((nodosUnicos es).length : Int))
    (h : idxANodo (cargar es) i = idxANodo (cargar es) j) : i = j := by
  rw [← (idxANodo_rango es i hi0 hi1).2, ← (idxANodo_rango es j hj0 hj1).2, h]

/-- Index order is identifier order. -/
theorem idxANodo_lt (es : List (Int × Int)) (i j : Int) (hi0 : 0 ≤ i) (hij : i < j)
    (hj1 : j < ((nodosUnicos es).length : Int)) :
    idxANodo (cargar es) i < idxANodo (cargar es) j := by
  obtain ⟨a, ha, rfl⟩ := idx_cast (nodosUnicos es).length i hi0 (by omega)
  obtain ⟨b, hb, rfl⟩ := idx_cast (nodosUnicos es).length j (by omega) hj1
  rw [idxANodo_get es a ha, idxANodo_get es b hb]
  have hs := nodosUnicos_sorted es
  exact (List.pairwise_iff_get.1 hs) ⟨a, ha⟩ ⟨b, hb⟩ (by simp only [Fin.mk_lt_mk]; omega)

theorem mem_listaCSR (es : List (Int × Int)) (i : Nat) (hi : i < (nodosUnicos es).length)
    (j : Int) :
    j ∈ (listaCSR es).getD i [] ↔
      ∃ a ∈ es, nodoAIdx (cargar es) a.1 = (i : Int) ∧ nodoAIdx (cargar es) a.2 = j := by
  have hlen := listaAdyacencia_length es
  have hi2 : i < (listaAdyacencia (conMapeo es) es).length := by rw [hlen]; exact hi
  have h1 : (listaCSR es).getD i [] =
      unique (sortInts ((listaAdyacencia (conMapeo es) es).getD i [])) := by
    simp [listaCSR, List.getD_eq_getElem?_getD, List.getElem?_map, List.getElem?_eq_getElem hi2]
  have h2 := (lista_fold (fun a => nodoAIdx (conMapeo es) a.1)
    (fun a => nodoAIdx (conMapeo es) a.2) es
    (List.replicate (conMapeo es).numNodos.toNat [])).2 i
    (by simp [conMapeo_numNodos]; exact hi)
  have h3 : (List.replicate (conMapeo es).numNodos.toNat ([] : List Int)).getD i [] = [] := by
    simp only [List.getD_eq_getElem?_getD, List.getElem?_replicate]
    split_ifs <;> rfl
  rw [h1, mem_unique_sort]
  unfold listaAdyacencia
  rw [h2, h3, List.nil_append, List.mem_map]
  simp only [List.mem_filter, decide_eq_true_eq, nodoAIdx_conMapeo]
  constructor
  · rintro ⟨a, ⟨ha, hai⟩, haj⟩
    refine ⟨a, ha, ?_, haj⟩
    have := (nodoAIdx_rango es a.1 ⟨a, ha, Or.inl rfl⟩).1
    omega
  · rintro ⟨a, ha, hai, haj⟩
    exact ⟨a, ⟨ha, by rw [hai]; simp⟩, haj⟩

/-- The rows of the loaded graph are strictly ascending. -/
theorem vecinosIdx_sorted (es : List (Int × Int)) (i : Int) (h0 : 0 ≤ i)
    (h1 : i < ((nodosUnicos es).length : Int)) :
    (vecinosIdx (cargar es) i).Sorted (· < ·) := by
  obtain ⟨j, hj, rfl⟩ := idx_cast _ i h0 h1
  have hj2 : j < (listaAdyacencia (conMapeo es) es).length := by
    rw [listaAdyacencia_length]; exact hj
  rw [vecinosIdx_cargar es j hj]
  have : (listaCSR es).getD j [] =
      unique (sortInts ((listaAdyacencia (conMapeo es) es).getD j [])) := by
    simp [listaCSR, List.getD_eq_getElem?_getD, List.getElem?_map, List.getElem?_eq_getElem hj2]
  rw [this]
  exact unique_sort_sorted _

/-- A row entry is an in-range index joined to the row by an input pair. -/
theorem vecinosIdx_arista (es : List (Int × Int)) (i w : Int) (h0 : 0 ≤ i)
    (h1 : i < ((nodosUnicos es).length : Int)) (hw : w ∈ vecinosIdx (cargar es) i) :
    0 ≤ w ∧ w < ((nodosUnicos es).length : Int) ∧
      (idxANodo (cargar es) i, idxANodo (cargar es) w) ∈ es := by
  obtain ⟨j, hj, rfl⟩ := idx_cast _ i h0 h1
  rw [vecinosIdx_cargar es j hj, mem_listaCSR es j hj] at hw
  obtain ⟨a, ha, ha1, ha2⟩ := hw
  have r1 := nodoAIdx_rango es a.1 ⟨a, ha, Or.inl rfl⟩
  have r2 := nodoAIdx_rango es a.2 ⟨a, ha, Or.inr rfl⟩
  rw [ha1] at r1
  rw [ha2] at r2
  refine ⟨r2.1, r2.2.1, ?_⟩
  rw [r1.2.2, r2.2.2]
  exact ha

/-- Every input pair shows up in the row of its origin. -/
theorem arista_vecinosIdx (es : List (Int × Int)) (y z : Int) (h : (y, z) ∈ es) :
    nodoAIdx (cargar es) z ∈ vecinosIdx (cargar es) (nodoAIdx (cargar es) y) := by
  obtain ⟨i, hi, _, hidx⟩ := nodoAIdx_known es y ⟨(y, z), h, Or.inl rfl⟩
  rw [hidx, vecinosIdx_cargar es i hi, mem_listaCSR es i hi]
  exact ⟨(y, z), h, hidx, rfl⟩

theorem foldl_snoc_map {α β : Type} (f : α → β) (l : List α) (init : List β) :
    l.foldl (fun acc i => acc ++ [f i]) init = init ++ l.map f := by
  induction l generalizing init with
  | nil => simp
  | cons a l ih => simp [ih]

theorem getVecinos_eq (g : GrafoDisperso) (n : Int) :
    getVecinos g n =
      if nodoAIdx g n = -1 then [] else (vecinosIdx g (nodoAIdx g n)).map (idxANodo g) := by
  unfold getVecinos vecinosIdx
  simp only []
  split_ifs
  · rfl
  · rw [foldl_snoc_map (fun i => idxANodo g (vecGet g.col_indices i))]
    simp

theorem esNodo_of_idx (es : List (Int × Int)) (x : Int) (h : nodoAIdx (cargar es) x ≠ -1) :
    EsNodo es x := by
  by_contra hx
  exact h (nodoAIdx_none es x hx)

theorem obtenerGrado_eq_length (es : List (Int × Int)) (n : Int) :
    obtenerGrado (cargar es) n = ((getVecinos (cargar es) n).length : Int) := by
  rw [getVecinos_eq]
  unfold obtenerGrado
  simp only []
  by_cases h : nodoAIdx (cargar es) n = -1
  · simp [h]
  · rw [if_neg h, if_neg h]
    obtain ⟨i, hi, _, hidx⟩ := nodoAIdx_known es n (esNodo_of_idx es n h)
    rw [hidx, grado_cargar es i hi, vecinosIdx_cargar es i hi]
    simp

theorem mem_getVecinos (es : List (Int × Int)) (n d : Int) :
    d ∈ getVecinos (cargar es) n ↔ (n, d) ∈ es := by
  rw [getVecinos_eq]
  constructor
  · intro h
    by_cases hn : nodoAIdx (cargar es) n = -1
    · simp [hn] at h
    · rw [if_neg hn, List.mem_map] at h
      obtain ⟨w, hw, rfl⟩ := h
      have r := nodoAIdx_rango es n (esNodo_of_idx es n hn)
      have := (vecinosIdx_arista es _ w r.1 r.2.1 hw).2.2
      rwa [r.2.2] at this
  · intro h
    have rn := nodoAIdx_rango es n ⟨(n, d), h, Or.inl rfl⟩
    have rd := nodoAIdx_rango es d ⟨(n, d), h, Or.inr rfl⟩
    have hn : nodoAIdx (cargar es) n ≠ -1 := by omega
    rw [if_neg hn, List.mem_map]
    exact ⟨nodoAIdx (cargar es) d, arista_vecinosIdx es n d h, rd.2.2⟩

theorem getVecinos_sorted (es : List (Int × Int)) (n : Int) :
    (getVecinos (cargar es) n).Sorted (· < ·) := by
  rw [getVecinos_eq]
  by_cases hn : nodoAIdx (cargar es) n = -1
  · simp [hn]
  · rw [if_neg hn]
    have r := nodoAIdx_rango es n (esNodo_of_idx es n hn)
    have hs := vecinosIdx_sorted es _ r.1 r.2.1
    unfold List.Sorted
    rw [List.pairwise_map]
    refine List.Pairwise.imp_of_mem ?_ hs
    intro a b ha hb hab
    have ra := vecinosIdx_arista es _ a r.1 r.2.1 ha
    have rb := vecinosIdx_arista es _ b r.1 r.2.1 hb
    exact idxANodo_lt es a b ra.1 hab rb.2.1

theorem nodosUnicos_card (es : List (Int × Int)) :
    (nodosUnicos es).length = (es.map Prod.fst ++ es.map Prod.snd).toFinset.card := by
  rw [← List.toFinset_card_of_nodup (nodosUnicos_nodup es)]
  congr 1
  ext x
  simp only [List.mem_toFinset, mem_nodosUnicos, EsNodo, List.mem_append, List.mem_map]
  constructor
  · rintro ⟨a, ha, h | h⟩
    · exact Or.inl ⟨a, ha, h⟩
    · exact Or.inr ⟨a, ha, h⟩
  · rintro (⟨a, ha, h⟩ | ⟨a, ha, h⟩)
    · exact ⟨a, ha, Or.inl h⟩
    · exact ⟨a, ha, Or.inr h⟩

theorem mayor_fold (g : GrafoDisperso) (n : Nat) :
    MayorHasta g n ((List.range n).foldl (mayorPaso g) (-1, 0)) := by
  induction n with
  | zero => left; simp
  | succ n ih =>
    rw [List.range_succ, List.foldl_append]
    simp only [List.foldl_cons, List.foldl_nil]
    generalize (List.range n).foldl (mayorPaso g) (-1, 0) = nm at ih
    unfold mayorPaso
    simp only []
    change MayorHasta g (n + 1) (if gradoIdx g n > nm.2 then (idxANodo g n, gradoIdx g n) else nm)
    rcases ih with ⟨hnm, hall⟩ | ⟨i0, hi0, hnm, hpos, hall, hbefore⟩
    · subst hnm
      by_cases hg : gradoIdx g n > 0
      · rw [if_pos hg]
        right
        refine ⟨n, by omega, rfl, hg, ?_, ?_⟩
        · intro i hi
          rcases Nat.lt_succ_iff_lt_or_eq.1 hi with h | h
          · have := hall i h; omega
          · subst h; exact le_refl _
        · intro i hi
          have := hall i hi; omega
      · rw [if_neg hg]
        left
        refine ⟨rfl, ?_⟩
        intro i hi
        rcases Nat.lt_succ_iff_lt_or_eq.1 hi with h | h
        · exact hall i h
        · subst h; omega
    · subst hnm
      by_cases hg : gradoIdx g n > gradoIdx g i0
      · rw [if_pos hg]
        right
        refine ⟨n, by omega, rfl, by omega, ?_, ?_⟩
        · intro i hi
          rcases Nat.lt_succ_iff_lt_or_eq.1 hi with h | h
          · have := hall i h; omega
          · subst h; exact le_refl _
        · intro i hi
          have := hall i hi; omega
      · rw [if_neg hg]
        right
        refine ⟨i0, by omega, rfl, hpos, ?_, hbefore⟩
        intro i hi
        rcases Nat.lt_succ_iff_lt_or_eq.1 hi with h | h
        · exact hall i h
        · subst h; omega

theorem obtenerGrado_idx (es : List (Int × Int)) (i : Nat) (hi : i < (nodosUnicos es).length) :
    obtenerGrado (cargar es) (idxANodo (cargar es) i) = gradoIdx (cargar es) i := by
  have r := idxANodo_rango es (i : Int) (by omega) (by omega)
  unfold obtenerGrado gradoIdx
  simp only [r.2]
  rw [if_neg (by omega)]

theorem obtenerGrado_nonneg (es : List (Int × Int)) (n : Int) : 0 ≤ obtenerGrado (cargar es) n := by
  rw [obtenerGrado_eq_length]; omega

theorem obtenerGrado_pos (es : List (Int × Int)) (a : Int × Int) (ha : a ∈ es) :
    1 ≤ obtenerGrado (cargar es) a.1 := by
  rw [obtenerGrado_eq_length]
  have : a.2 ∈ getVecinos (cargar es) a.1 := (mem_getVecinos es a.1 a.2).2 ha
  have := List.length_pos_of_mem this
  omega

theorem mayorGrado_spec (es : List (Int × Int)) :
    (es = [] → getNodoMayorGrado (cargar es) = (-1, 0)) ∧
    (es ≠ [] →
      EsNodo es (getNodoMayorGrado (cargar es)).1 ∧
      1 ≤ (getNodoMayorGrado (cargar es)).2 ∧
      obtenerGrado (cargar es) (getNodoMayorGrado (cargar es)).1 =
        (getNodoMayorGrado (cargar es)).2 ∧
      (∀ n, obtenerGrado (cargar es) n ≤ (getNodoMayorGrado (cargar es)).2) ∧
      (∀ n, obtenerGrado (cargar es) n = (getNodoMayorGrado (cargar es)).2 →
        (getNodoMayorGrado (cargar es)).1 ≤ n)) := by
  constructor
  · rintro rfl; decide
  · intro hne
    have hN : (cargar es).numNodos.toNat = (nodosUnicos es).length := by
      rw [cargar_numNodos]; simp
    have hf := mayor_fold (cargar es) (nodosUnicos es).length
    have hdef : getNodoMayorGrado (cargar es) =
        (List.range (nodosUnicos es).length).foldl (mayorPaso (cargar es)) (-1, 0) := by
      unfold getNodoMayorGrado; rw [hN]
    rw [← hdef] at hf
    obtain ⟨a, ha⟩ := List.exists_mem_of_ne_nil es hne
    obtain ⟨ia, hia, hget, hidx⟩ := nodoAIdx_known es a.1 ⟨a, ha, Or.inl rfl⟩
    have hdeg : 1 ≤ gradoIdx (cargar es) ia := by
      rw [← obtenerGrado_idx es ia hia, idxANodo_get es ia hia, hget]
      exact obtenerGrado_pos es a ha
    rcases hf with ⟨_, hall⟩ | ⟨i0, hi0, hnm, hpos, hall, hbefore⟩
    · have := hall ia hia; omega
    · rw [hnm]
      simp only []
      have r0 := idxANodo_rango es (i0 : Int) (by omega) (by omega)
      have hmax : ∀ n, obtenerGrado (cargar es) n ≤ gradoIdx (cargar es) i0 := by
        intro n
        by_cases hn : EsNodo es n
        · obtain ⟨i, hi, hg, _⟩ := nodoAIdx_known es n hn
          rw [← hg, ← idxANodo_get es i hi, obtenerGrado_idx es i hi]
          exact hall i hi
        · have : obtenerGrado (cargar es) n = 0 := by
            unfold obtenerGrado; simp [nodoAIdx_none es n hn]
          omega
      refine ⟨r0.1, by omega, obtenerGrado_idx es i0 hi0, hmax, ?_⟩
      intro n hn
      have hkn : EsNodo es n := by
        by_contra hc
        have : obtenerGrado (cargar es) n = 0 := by
          unfold obtenerGrado; simp [nodoAIdx_none es n hc]
        omega
      obtain ⟨i, hi, hg, _⟩ := nodoAIdx_known es n hkn
      rw [← hg, ← idxANodo_get es i hi, obtenerGrado_idx es i hi] at hn
      rw [← hg, ← idxANodo_get es i hi]
      have hle : i0 ≤ i := by
        by_contra hc
        have := hbefore i (by omega)
        omega
      rcases Nat.lt_or_eq_of_le hle with h | h
      · exact le_of_lt (idxANodo_lt es i0 i (by omega) (by omega) (by omega))
      · subst h; exact le_refl _

theorem visitar_eq (g : GrafoDisperso) (d : Int) (st : BFSEstado) (i : Int) :
    visitar g d st i = descubrir g d st (vecGet g.col_indices i) := rfl

theorem expandir_eq (g : GrafoDisperso) (D : Int) (st : BFSEstado) (u : Int) :
    expandir g D st u =
      if vecGet st.distancia u ≥ D then st
      else (vecinosIdx g u).foldl (descubrir g (vecGet st.distancia u)) st := by
  unfold expandir vecinosIdx
  simp only []
  split_ifs
  · rfl
  · rw [List.foldl_map]
    rfl

theorem vecGet_vecSet_int (v : List Int) (i j x : Int) (hi0 : 0 ≤ i) (hi : i < (v.length : Int))
    (hj0 : 0 ≤ j) :
    vecGet (vecSet v i x) j = if j = i then x else vecGet v j := by
  obtain ⟨a, ha, rfl⟩ := idx_cast v.length i hi0 hi
  obtain ⟨b, rfl⟩ := Int.eq_ofNat_of_zero_le hj0
  rw [vecGet_vecSet v a b x ha]
  by_cases h : b = a
  · subst h; simp
  · have : ¬ ((b : Int) = (a : Int)) := by omega
    rw [if_neg h, if_neg this]

theorem mem_of_head (l : List Int) (s : Int) (h : l.head? = some s) : s ∈ l := by
  cases l with
  | nil => simp at h
  | cons a l => simp at h; subst h; simp

/-- Once every discovered index closer than `L` has all its neighbours
discovered, every walk of at most `L` hops ends in a discovered index. -/
theorem alcance (es : List (Int × Int)) (xs D : Int) (dist : List Int) (res : List (Int × Int))
    (orden : List Int) (hb : Base es xs D dist res orden) (L : Int)
    (hL : ∀ x ∈ orden, vecGet dist x < L → ∀ w ∈ vecinosIdx (cargar es) x, w ∈ orden)
    (y : Int) (k : Nat) (hc : Camino es xs y k) (hk : (k : Int) ≤ L) :
    nodoAIdx (cargar es) y ∈ orden := by
  induction hc with
  | inicio _ => exact mem_of_head _ _ hb.cabeza
  | paso y z n hyn hyz ih =>
    have hy := ih (by push_cast at hk; omega)
    have ry := nodoAIdx_rango es y ⟨(y, z), hyz, Or.inl rfl⟩
    have hmin := hb.minimo _ hy n (by rw [ry.2.2]; exact hyn)
    exact hL _ hy (by push_cast at hk; omega) _ (arista_vecinosIdx es y z hyz)

/-- In the discovery order, nothing from `u` onwards is closer than `u`. -/
theorem desde_u (dist : List Int) (hecho cola : List Int) (u x : Int)
    (hp : (hecho ++ u :: cola).Pairwise (fun a b => vecGet dist a ≤ vecGet dist b))
    (hx : x ∈ u :: cola) : vecGet dist u ≤ vecGet dist x := by
  have h2 := (List.pairwise_append.1 hp).2.1
  rcases List.mem_cons.1 hx with rfl | hx
  · exact le_refl _
  · exact (List.pairwise_cons.1 h2).1 x hx

/-- In the discovery order, nothing popped before `u` is farther than `u`. -/
theorem antes_u (dist : List Int) (hecho cola : List Int) (u x : Int)
    (hp : (hecho ++ u :: cola).Pairwise (fun a b => vecGet dist a ≤ vecGet dist b))
    (hx : x ∈ hecho) : vecGet dist x ≤ vecGet dist u :=
  (List.pairwise_append.1 hp).2.2 x hx u (List.mem_cons_self _ _)

theorem invIn_paso (es : List (Int × Int)) (xs D : Int) (st : BFSEstado) (hecho : List Int)
    (u d w : Int) (pend : List Int) (h : InvIn es xs D st hecho u d (w :: pend)) :
    InvIn es xs D (descubrir (cargar es) d st w) hecho u d pend := by
  have hw_adj : w ∈ vecinosIdx (cargar es) u := h.pend_sub w (List.mem_cons_self _ _)
  have hu_mem : u ∈ hecho ++ u :: st.cola := by simp
  have hu := h.base.rango u hu_mem
  have hwr := vecinosIdx_arista es u w hu.1 hu.2 hw_adj
  unfold descubrir
  by_cases hv : vecGet st.distancia w = -1
  · rw [if_pos hv]
    have hwn : w ∉ hecho ++ u :: st.cola := fun hm => (h.base.visto w hwr.1 hwr.2.1).2 hm hv
    obtain ⟨n, hn, hcam⟩ := h.base.camino u hu_mem
    rw [h.nivel_eq] at hn
    have hset : ∀ v, 0 ≤ v → vecGet (vecSet st.distancia w (d + 1)) v =
        if v = w then d + 1 else vecGet st.distancia v := fun v hv0 =>
      vecGet_vecSet_int _ w v _ hwr.1 (by rw [h.base.largo]; exact hwr.2.1) hv0
    have hold : ∀ v ∈ hecho ++ u :: st.cola,
        vecGet (vecSet st.distancia w (d + 1)) v = vecGet st.distancia v := by
      intro v hvm
      rw [hset v (h.base.rango v hvm).1, if_neg (fun e => hwn (by rw [← e]; exact hvm))]
    have hnew : vecGet (vecSet st.distancia w (d + 1)) w = d + 1 := by
      rw [hset w hwr.1, if_pos rfl]
    have horden : hecho ++ u :: (st.cola ++ [w]) = (hecho ++ u :: st.cola) ++ [w] := by simp
    have hle : ∀ a ∈ hecho ++ u :: st.cola, vecGet st.distancia a ≤ d + 1 := by
      intro a ha
      rcases List.mem_append.1 ha with ha | ha
      · have := antes_u _ _ _ _ _ h.base.creciente ha
        rw [h.nivel_eq] at this; omega
      · rcases List.mem_cons.1 ha with rfl | ha
        · rw [h.nivel_eq]; omega
        · exact h.ventana a ha
    have hL : ∀ x ∈ hecho ++ u :: st.cola, vecGet st.distancia x < d →
        ∀ w2 ∈ vecinosIdx (cargar es) x, w2 ∈ hecho ++ u :: st.cola := by
      intro x hx hxd
      rcases List.mem_append.1 hx with hx | hx
      · exact h.expandido x hx (lt_trans hxd h.nivel)
      · have := desde_u _ _ _ _ _ h.base.creciente hx
        rw [h.nivel_eq] at this; omega
    have hmapold : (hecho ++ u :: st.cola).map (vecGet (vecSet st.distancia w (d + 1))) =
        (hecho ++ u :: st.cola).map (vecGet st.distancia) :=
      List.map_congr_left hold
    refine
      { base := ?_, expandido := ?_, nivel_eq := ?_, nivel := h.nivel, pendiente := ?_,
        pend_sub := ?_, ventana := ?_ }
    · show Base es xs D (vecSet st.distancia w (d + 1))
        (st.resultado ++ [(idxANodo (cargar es) w, d + 1)]) (hecho ++ u :: (st.cola ++ [w]))
      rw [horden]
      refine
        { nodup := ?_, rango := ?_, visto := ?_, largo := ?_, res_eq := ?_, camino := ?_,
          minimo := ?_, creciente := ?_, escalon := ?_, cabeza := ?_, tope := ?_ }
      · refine List.Nodup.append h.base.nodup (List.nodup_singleton w) ?_
        intro a ha hb
        rw [List.mem_singleton] at hb
        exact hwn (by rw [← hb]; exact ha)
      · intro v hvm
        rcases List.mem_append.1 hvm with hvm | hvm
        · exact h.base.rango v hvm
        · rw [List.mem_singleton] at hvm; subst hvm; exact ⟨hwr.1, hwr.2.1⟩
      · intro v hv0 hv1
        rw [hset v hv0, List.mem_append, List.mem_singleton]
        by_cases e : v = w
        · rw [if_pos e]
          constructor
          · intro _; exact Or.inr e
          · intro _; omega
        · rw [if_neg e, h.base.visto v hv0 hv1]
          constructor
          · intro hm; exact Or.inl hm
          · rintro (hm | hm)
            · exact hm
            · exact absurd hm e
      · rw [vecSet_length]; exact h.base.largo
      · rw [List.map_append, h.base.res_eq]
        congr 1
        · apply List.map_congr_left
          intro v hvm
          rw [hold v hvm]
        · simp [hnew]
      · intro v hvm
        rcases List.mem_append.1 hvm with hvm | hvm
        · rw [hold v hvm]; exact h.base.camino v hvm
        · rw [List.mem_singleton] at hvm; subst hvm
          refine ⟨n + 1, by rw [hnew]; push_cast; omega, ?_⟩
          exact Camino.paso _ _ n hcam hwr.2.2
      · intro v hvm k hk
        rcases List.mem_append.1 hvm with hvm | hvm
        · rw [hold v hvm]; exact h.base.minimo v hvm k hk
        · rw [List.mem_singleton] at hvm; subst hvm
          rw [hnew]
          by_contra hc
          have hkd : (k : Int) ≤ d := by omega
          have := alcance es xs D _ _ _ h.base d hL _ k hk hkd
          rw [(idxANodo_rango es v hwr.1 hwr.2.1).2] at this
          exact hwn this
      · rw [List.pairwise_append]
        refine ⟨?_, List.pairwise_singleton _ _, ?_⟩
        · refine List.Pairwise.imp_of_mem ?_ h.base.creciente
          intro a b ha hb hab
          rw [hold a ha, hold b hb]; exact hab
        · intro a ha b hb
          rw [List.mem_singleton] at hb; subst hb
          rw [hold a ha, hnew]; exact hle a ha
      · rw [List.map_append, hmapold]
        refine List.Chain'.append h.base.escalon (List.chain'_singleton _) ?_
        intro x hx y hy
        simp only [List.map_cons, List.map_nil, List.head?_cons, Option.mem_def,
          Option.some.injEq] at hy
        subst hy
        rw [hnew]
        rw [List.getLast?_map, Option.mem_def, Option.map_eq_some'] at hx
        obtain ⟨a, ha, rfl⟩ := hx
        have ha2 : a ∈ u :: st.cola := by
          rw [List.getLast?_append_of_ne_nil _ (List.cons_ne_nil _ _)] at ha
          exact List.mem_of_getLast?_eq_some ha
        have := desde_u _ _ _ _ _ h.base.creciente ha2
        rw [h.nivel_eq] at this; omega
      · rw [List.head?_append_of_ne_nil _ (by simp)]
        exact h.base.cabeza
      · intro v hvm
        rcases List.mem_append.1 hvm with hvm | hvm
        · rw [hold v hvm]; exact h.base.tope v hvm
        · rw [List.mem_singleton] at hvm; subst hvm
          left; rw [hnew]; have := h.nivel; omega
    · intro x hx hxd w2 hw2
      show w2 ∈ hecho ++ u :: (st.cola ++ [w])
      rw [horden]
      have hxm : x ∈ hecho ++ u :: st.cola := List.mem_append_left _ hx
      have hxd2 : vecGet st.distancia x < D := by
        have e := hold x hxm
        have hxd3 : vecGet (vecSet st.distancia w (d + 1)) x < D := hxd
        rw [e] at hxd3; exact hxd3
      exact List.mem_append_left _ (h.expandido x hx hxd2 w2 hw2)
    · show vecGet (vecSet st.distancia w (d + 1)) u = d
      rw [hold u hu_mem]; exact h.nivel_eq
    · intro w2 hw2
      show w2 ∈ pend ∨ w2 ∈ hecho ++ u :: (st.cola ++ [w])
      rw [horden]
      rcases h.pendiente w2 hw2 with hp | hp
      · rcases List.mem_cons.1 hp with rfl | hp
        · right; simp
        · left; exact hp
      · right; exact List.mem_append_left _ hp
    · intro w2 hw2; exact h.pend_sub w2 (List.mem_cons_of_mem _ hw2)
    · intro y hy
      show vecGet (vecSet st.distancia w (d + 1)) y ≤ d + 1
      rcases List.mem_append.1 hy with hy | hy
      · rw [hold y (by simp [hy])]; exact h.ventana y hy
      · rw [List.mem_singleton] at hy; subst hy; rw [hnew]
  · rw [if_neg hv]
    have hwm : w ∈ hecho ++ u :: st.cola := (h.base.visto w hwr.1 hwr.2.1).1 hv
    refine
      { base := h.base, expandido := h.expandido, nivel_eq := h.nivel_eq, nivel := h.nivel,
        pendiente := ?_, pend_sub := ?_, ventana := h.ventana }
    · intro w2 hw2
      rcases h.pendiente w2 hw2 with hp | hp
      · rcases List.mem_cons.1 hp with rfl | hp
        · right; exact hwm
        · left; exact hp
      · right; exact hp
    · intro w2 hw2; exact h.pend_sub w2 (List.mem_cons_of_mem _ hw2)

theorem invIn_fold (es : List (Int × Int)) (xs D : Int) (hecho : List Int) (u d : Int)
    (pend : List Int) (st : BFSEstado) (h : InvIn es xs D st hecho u d pend) :
    InvIn es xs D (pend.foldl (descubrir (cargar es) d) st) hecho u d [] := by
  induction pend generalizing st with
  | nil => exact h
  | cons w pend ih => exact ih _ (invIn_paso es xs D st hecho u d w pend h)

theorem bfsBucle_nil (g : GrafoDisperso) (D : Int) (pasos : Nat) (st : BFSEstado)
    (h : st.cola = []) : bfsBucle g D pasos st = some st := by
  unfold bfsBucle
  simp only [h]

theorem bfsBucle_zero (g : GrafoDisperso) (D : Int) (st : BFSEstado) (u : Int) (r : List Int)
    (h : st.cola = u :: r) : bfsBucle g D 0 st = none := by
  unfold bfsBucle
  simp only [h]

theorem bfsBucle_succ (g : GrafoDisperso) (D : Int) (pasos : Nat) (st : BFSEstado) (u : Int)
    (r : List Int) (h : st.cola = u :: r) :
    bfsBucle g D (pasos + 1) st = bfsBucle g D pasos (expandir g D { st with cola := r } u) := by
  conv_lhs => unfold bfsBucle
  simp only [h]

theorem largo_orden (N : Nat) (orden : List Int) (hn : orden.Nodup)
    (hr : ∀ v ∈ orden, 0 ≤ v ∧ v < (N : Int)) : orden.length ≤ N := by
  have h1 : (orden.map Int.toNat).Nodup := by
    rw [List.nodup_map_iff_inj_on hn]
    intro a ha b hb hab
    have := hr a ha
    have := hr b hb
    omega
  have h2 : orden.map Int.toNat ⊆ List.range N := by
    intro x hx
    rw [List.mem_map] at hx
    obtain ⟨a, ha, rfl⟩ := hx
    have := hr a ha
    rw [List.mem_range]; omega
  have := (List.subperm_of_subset h1 h2).length_le
  simpa using this

theorem inv_fin_expandir (es : List (Int × Int)) (xs D : Int) (st : BFSEstado)
    (hecho : List Int) (u d : Int) (h : InvIn es xs D st hecho u d []) :
    Inv es xs D st (hecho ++ [u]) := by
  have e : (hecho ++ [u]) ++ st.cola = hecho ++ u :: st.cola := by simp
  refine { base := ?_, expandido := ?_, ventana := ?_ }
  · rw [e]; exact h.base
  · intro x hx hxd w hw
    rw [e]
    rcases List.mem_append.1 hx with hx | hx
    · exact h.expandido x hx hxd w hw
    · rw [List.mem_singleton] at hx; subst hx
      rcases h.pendiente w hw with hp | hp
      · simp at hp
      · exact hp
  · intro x hx y hy
    have h1 := desde_u _ _ _ _ _ h.base.creciente (List.mem_cons_of_mem _ hx)
    have h2 := h.ventana y hy
    rw [h.nivel_eq] at h1
    omega

theorem inv_expandir (es : List (Int × Int)) (xs D : Int) (st : BFSEstado) (hecho : List Int)
    (u : Int) (resto : List Int) (h : Inv es xs D st hecho) (hc : st.cola = u :: resto) :
    Inv es xs D (expandir (cargar es) D { st with cola := resto } u) (hecho ++ [u]) := by
  have hb : Base es xs D st.distancia st.resultado (hecho ++ u :: resto) := by
    have := h.base; rw [hc] at this; exact this
  rw [expandir_eq]
  dsimp only
  by_cases hd : vecGet st.distancia u ≥ D
  · rw [if_pos hd]
    have e : (hecho ++ [u]) ++ resto = hecho ++ u :: resto := by simp
    refine { base := ?_, expandido := ?_, ventana := ?_ }
    · show Base es xs D st.distancia st.resultado ((hecho ++ [u]) ++ resto)
      rw [e]; exact hb
    · intro x hx hxd w hw
      show w ∈ (hecho ++ [u]) ++ resto
      rw [e]
      rcases List.mem_append.1 hx with hx | hx
      · have := h.expandido x hx hxd w hw
        rw [hc] at this; exact this
      · rw [List.mem_singleton] at hx; subst hx
        have hxd2 : vecGet st.distancia x < D := hxd
        omega
    · intro x hx y hy
      have := h.ventana x (by rw [hc]; exact List.mem_cons_of_mem _ hx) y
        (by rw [hc]; exact List.mem_cons_of_mem _ hy)
      exact this
  · rw [if_neg hd]
    apply inv_fin_expandir es xs D _ hecho u (vecGet st.distancia u)
    apply invIn_fold
    refine
      { base := hb, expandido := ?_, nivel_eq := rfl, nivel := by omega, pendiente := ?_,
        pend_sub := fun w hw => hw, ventana := ?_ }
    · intro x hx hxd w hw
      have := h.expandido x hx hxd w hw
      rw [hc] at this; exact this
    · intro w hw; left; exact hw
    · intro y hy
      exact h.ventana u (by rw [hc]; simp) y (by rw [hc]; exact List.mem_cons_of_mem _ hy)

/-- The traversal loop finishes within as many iterations as there are indices
not yet popped, and the invariant holds when it does. -/
theorem bfsBucle_total (es : List (Int × Int)) (xs D : Int) (pasos : Nat) :
    ∀ (st : BFSEstado) (hecho : List Int), Inv es xs D st hecho →
      (nodosUnicos es).length ≤ pasos + hecho.length →
      ∃ st2 hecho2, bfsBucle (cargar es) D pasos st = some st2 ∧ Inv es xs D st2 hecho2 ∧
        st2.cola = [] := by
  induction pasos with
  | zero =>
    intro st hecho h hp
    cases hc : st.cola with
    | nil => exact ⟨st, hecho, bfsBucle_nil _ _ _ _ hc, h, hc⟩
    | cons u resto =>
      exfalso
      have := largo_orden _ _ h.base.nodup h.base.rango
      rw [hc] at this
      simp at this
      omega
  | succ pasos ih =>
    intro st hecho h hp
    cases hc : st.cola with
    | nil => exact ⟨st, hecho, bfsBucle_nil _ _ _ _ hc, h, hc⟩
    | cons u resto =>
      rw [bfsBucle_succ _ _ _ _ u resto hc]
      exact ih _ (hecho ++ [u]) (inv_expandir es xs D st hecho u resto h hc)
        (by rw [List.length_append, List.length_singleton]; omega)

theorem vecGet_replicate (N : Nat) (v : Int) (h0 : 0 ≤ v) (h1 : v < (N : Int)) :
    vecGet (List.replicate N (-1)) v = -1 := by
  obtain ⟨j, hj, rfl⟩ := idx_cast N v h0 h1
  simp [vecGet, List.getD_eq_getElem?_getD, List.getElem?_replicate, hj]

/-- The invariant holds when the loop of `BFS` is entered. -/
theorem inv_inicial (es : List (Int × Int)) (xs D : Int) (hxs : EsNodo es xs) :
    Inv es xs D
      { distancia := vecSet (List.replicate (cargar es).numNodos.toNat (-1))
          (nodoAIdx (cargar es) xs) 0,
        cola := [nodoAIdx (cargar es) xs],
        resultado := [(xs, 0)] } [] := by
  have hN : (cargar es).numNodos.toNat = (nodosUnicos es).length := by
    rw [cargar_numNodos]; simp
  rw [hN]
  have r := nodoAIdx_rango es xs hxs
  have hset : ∀ v, 0 ≤ v → vecGet (vecSet (List.replicate (nodosUnicos es).length (-1))
      (nodoAIdx (cargar es) xs) 0) v =
        if v = nodoAIdx (cargar es) xs then 0
        else vecGet (List.replicate (nodosUnicos es).length (-1)) v := fun v hv0 =>
    vecGet_vecSet_int _ _ v _ r.1 (by simpa using r.2.1) hv0
  have hs0 := hset _ r.1
  rw [if_pos rfl] at hs0
  refine { base := ?_, expandido := ?_, ventana := ?_ }
  · show Base es xs D _ [(xs, 0)] ([] ++ [nodoAIdx (cargar es) xs])
    rw [List.nil_append]
    refine
      { nodup := List.nodup_singleton _, rango := ?_, visto := ?_, largo := ?_, res_eq := ?_,
        camino := ?_, minimo := ?_, creciente := List.pairwise_singleton _ _,
        escalon := ?_, cabeza := rfl, tope := ?_ }
    · intro v hv; rw [List.mem_singleton] at hv; subst hv; exact ⟨r.1, r.2.1⟩
    · intro v hv0 hv1
      rw [hset v hv0, List.mem_singleton]
      by_cases e : v = nodoAIdx (cargar es) xs
      · simp [e]
      · rw [if_neg e, vecGet_replicate _ v hv0 hv1]; simp [e]
    · simp [vecSet_length]
    · simp [hs0, r.2.2]
    · intro v hv; rw [List.mem_singleton] at hv; subst hv
      refine ⟨0, by rw [hs0]; rfl, ?_⟩
      rw [r.2.2]; exact Camino.inicio hxs
    · intro v hv k _; rw [List.mem_singleton] at hv; subst hv
      rw [hs0]; omega
    · simp
    · intro v hv; right; exact List.mem_singleton.1 hv
  · intro x hx; simp at hx
  · intro x hx y hy
    simp only [List.mem_singleton] at hx hy
    subst hx; subst hy; omega

/-- On a known start node the call returns, and the invariant describes what
it returns. -/
theorem BFS_inv (es : List (Int × Int)) (xs D : Int) (hxs : EsNodo es xs) (pasos : Nat)
    (hp : (nodosUnicos es).length ≤ pasos) :
    ∃ st hecho, BFS (cargar es) xs D pasos = some st.resultado ∧ Inv es xs D st hecho ∧
      st.cola = [] := by
  have r := nodoAIdx_rango es xs hxs
  obtain ⟨st2, hecho2, h1, h2, h3⟩ := bfsBucle_total es xs D pasos _ [] (inv_inicial es xs D hxs)
    (by simpa using hp)
  refine ⟨st2, hecho2, ?_, h2, h3⟩
  unfold BFS
  simp only []
  rw [if_neg (by omega), h1]
  rfl

theorem bfsBucle_mas (g : GrafoDisperso) (D : Int) (pasos mas : Nat) :
    ∀ (st st2 : BFSEstado), bfsBucle g D pasos st = some st2 →
      bfsBucle g D (pasos + mas) st = some st2 := by
  induction pasos with
  | zero =>
    intro st st2 h
    cases hc : st.cola with
    | nil =>
      rw [bfsBucle_nil _ _ _ _ hc] at h
      rw [bfsBucle_nil _ _ _ _ hc]; exact h
    | cons u r => rw [bfsBucle_zero _ _ _ u r hc] at h; cases h
  | succ pasos ih =>
    intro st st2 h
    cases hc : st.cola with
    | nil =>
      rw [bfsBucle_nil _ _ _ _ hc] at h
      rw [bfsBucle_nil _ _ _ _ hc]; exact h
    | cons u r =>
      rw [bfsBucle_succ _ _ _ _ u r hc] at h
      have e : pasos + 1 + mas = (pasos + mas) + 1 := by omega
      rw [e, bfsBucle_succ _ _ _ _ u r hc]
      exact ih _ _ h

theorem BFS_mas (g : GrafoDisperso) (xs D : Int) (pasos mas : Nat) (r : List (Int × Int))
    (h : BFS g xs D pasos = some r) : BFS g xs D (pasos + mas) = some r := by
  unfold BFS at h ⊢
  dsimp only at h ⊢
  split_ifs at h ⊢ with h1
  · exact h
  · rw [Option.map_eq_some'] at h
    obtain ⟨st2, h2, h3⟩ := h
    rw [bfsBucle_mas _ _ _ mas _ _ h2]
    simp [h3]

theorem BFS_desconocido (g : GrafoDisperso) (xs D : Int) (pasos : Nat)
    (h : nodoAIdx g xs = -1) : BFS g xs D pasos = some [] := by
  unfold BFS; simp [h]

theorem numNodos_toNat (es : List (Int × Int)) (pasos : Nat)
    (hp : getNumNodos (cargar es) ≤ (pasos : Int)) : (nodosUnicos es).length ≤ pasos := by
  unfold getNumNodos at hp
  rw [cargar_numNodos] at hp
  omega

theorem camino_cero (es : List (Int × Int)) (x y : Int) (n : Nat) (h : Camino es x y n)
    (hn : n = 0) : y = x := by
  cases h with
  | inicio _ => rfl
  | paso y z n _ _ => omega

/-- The distance recorded for the start index is zero. -/
theorem dist_inicio (es : List (Int × Int)) (xs D : Int) (dist : List Int)
    (res : List (Int × Int)) (orden : List Int) (hb : Base es xs D dist res orden)
    (hxs : EsNodo es xs) : vecGet dist (nodoAIdx (cargar es) xs) = 0 := by
  have hm := mem_of_head _ _ hb.cabeza
  obtain ⟨n, hn, _⟩ := hb.camino _ hm
  have := hb.minimo _ hm 0 (by rw [(nodoAIdx_rango es xs hxs).2.2]; exact Camino.inicio hxs)
  push_cast at this
  omega

/-- The identifiers reported by the traversal are pairwise distinct. -/
theorem primeros_nodup (es : List (Int × Int)) (xs D : Int) (dist : List Int)
    (res : List (Int × Int)) (orden : List Int) (hb : Base es xs D dist res orden) :
    (res.map Prod.fst).Nodup := by
  rw [hb.res_eq, List.map_map]
  refine List.Nodup.map_on ?_ hb.nodup
  intro a ha b hb2 hab
  exact idxANodo_inj es a b (hb.rango a ha).1 (hb.rango a ha).2 (hb.rango b hb2).1
    (hb.rango b hb2).2 hab

/-- C1: on the graph loaded from any edge list, for a start node that occurs in
the list and a depth bound `maxDepth ≥ 0`, `BFS` returns (given at least as many
loop iterations as there are nodes), and every pair `(id, d)` it returns has
`d ≤ maxDepth` with `d` the shortest hop count from the start to `id` in the
directed graph formed by the input pairs. -/
theorem bfs_distancia_minima (es : List (Int × Int)) (start maxDepth : Int)
    (hs : EsNodo es start) (hd : 0 ≤ maxDepth) (pasos : Nat)
    (hp : getNumNodos (cargar es) ≤ (pasos : Int)) :
    ∃ r, BFS (cargar es) start maxDepth pasos = some r ∧
      ∀ p ∈ r, p.2 ≤ maxDepth ∧ DistanciaMinima es start p.1 p.2 := by
  obtain ⟨st, hecho, h1, h2, h3⟩ := BFS_inv es start maxDepth hs pasos (numNodos_toNat es pasos hp)
  refine ⟨st.resultado, h1, ?_⟩
  have hb := h2.base
  rw [h3, List.append_nil] at hb
  intro p hp2
  rw [hb.res_eq, List.mem_map] at hp2
  obtain ⟨v, hv, rfl⟩ := hp2
  refine ⟨?_, hb.camino v hv, hb.minimo v hv⟩
  rcases hb.tope v hv with h | h
  · exact h
  · show vecGet st.distancia v ≤ maxDepth
    rw [h, dist_inicio es start maxDepth _ _ _ hb hs]; exact hd

theorem bfs_distancia_minima_witness :
    EsNodo [(1, 2), (1, 3), (2, 3), (3, 1)] 1 ∧ (0 : Int) ≤ 1 ∧
    getNumNodos (cargar [(1, 2), (1, 3), (2, 3), (3, 1)]) ≤ ((3 : Nat) : Int) ∧
    ∃ r, BFS (cargar [(1, 2), (1, 3), (2, 3), (3, 1)]) 1 1 3 = some r ∧
      ∀ p ∈ r, p.2 ≤ 1 ∧ DistanciaMinima [(1, 2), (1, 3), (2, 3), (3, 1)] 1 p.1 p.2 :=
  ⟨by decide, by decide, by decide,
    bfs_distancia_minima [(1, 2), (1, 3), (2, 3), (3, 1)] 1 1 (by decide) (by decide) 3
      (by decide)⟩

/-- C2: for a start node that occurs in the edge list, the sequence returned by
`BFS` begins with `(start, 0)` and `start` occurs in no later element; with depth
bound `0` the result is exactly `[(start, 0)]`. -/
theorem bfs_inicio_primero (es : List (Int × Int)) (start maxDepth : Int)
    (hs : EsNodo es start) (pasos : Nat) (hp : getNumNodos (cargar es) ≤ (pasos : Int)) :
    (∃ t, BFS (cargar es) start maxDepth pasos = some ((start, 0) :: t) ∧
      ∀ p ∈ t, p.1 ≠ start) ∧
    BFS (cargar es) start 0 pasos = some [(start, 0)] := by
  have key : ∀ D : Int, ∃ st : BFSEstado, ∃ t : List Int,
      BFS (cargar es) start D pasos = some st.resultado ∧
      Base es start D st.distancia st.resultado (nodoAIdx (cargar es) start :: t) ∧
      st.resultado = (start, 0) ::
        t.map (fun v => (idxANodo (cargar es) v, vecGet st.distancia v)) := by
    intro D
    obtain ⟨st, hecho, h1, h2, h3⟩ := BFS_inv es start D hs pasos (numNodos_toNat es pasos hp)
    have hb := h2.base
    rw [h3, List.append_nil] at hb
    have hcab := hb.cabeza
    cases hh : hecho with
    | nil => rw [hh] at hcab; simp at hcab
    | cons a t =>
      rw [hh] at hcab hb
      simp only [List.head?_cons, Option.some.injEq] at hcab
      subst hcab
      refine ⟨st, t, h1, hb, ?_⟩
      rw [hb.res_eq, List.map_cons, dist_inicio es start D _ _ _ hb hs,
        (nodoAIdx_rango es start hs).2.2]
  have r := nodoAIdx_rango es start hs
  constructor
  · obtain ⟨st, t, h1, hb, hres⟩ := key maxDepth
    refine ⟨_, by rw [h1, hres], ?_⟩
    intro p hp2 hps
    rw [List.mem_map] at hp2
    obtain ⟨v, hv, rfl⟩ := hp2
    have hvr := hb.rango v (List.mem_cons_of_mem _ hv)
    have hps2 : idxANodo (cargar es) v = start := hps
    have : v = nodoAIdx (cargar es) start := by
      apply idxANodo_inj es v _ hvr.1 hvr.2 r.1 r.2.1
      rw [hps2, r.2.2]
    subst this
    exact (List.nodup_cons.1 hb.nodup).1 hv
  · obtain ⟨st, t, h1, hb, hres⟩ := key 0
    have ht : t = [] := by
      apply List.eq_nil_iff_forall_not_mem.2
      intro v hv
      have hvm : v ∈ nodoAIdx (cargar es) start :: t := List.mem_cons_of_mem _ hv
      have hne : v ≠ nodoAIdx (cargar es) start := by
        intro e; subst e
        exact (List.nodup_cons.1 hb.nodup).1 hv
      have hvr := hb.rango v hvm
      obtain ⟨n, hn, hc⟩ := hb.camino v hvm
      rcases hb.tope v hvm with h | h
      · have hn0 : n = 0 := by omega
        have := camino_cero es _ _ n hc hn0
        apply hne
        apply idxANodo_inj es v _ hvr.1 hvr.2 r.1 r.2.1
        rw [this, r.2.2]
      · exact hne h
    rw [h1, hres, ht]
    rfl

theorem bfs_inicio_primero_witness :
    EsNodo [(1, 2), (1, 3), (2, 3), (3, 1)] 1 ∧
    getNumNodos (cargar [(1, 2), (1, 3), (2, 3), (3, 1)]) ≤ ((3 : Nat) : Int) ∧
    (∃ t, BFS (cargar [(1, 2), (1, 3), (2, 3), (3, 1)]) 1 2 3 = some ((1, 0) :: t) ∧
      ∀ p ∈ t, p.1 ≠ 1) ∧
    BFS (cargar [(1, 2), (1, 3), (2, 3), (3, 1)]) 1 0 3 = some [(1, 0)] :=
  ⟨by decide, by decide,
    bfs_inicio_primero [(1, 2), (1, 3), (2, 3), (3, 1)] 1 2 (by decide) 3 (by decide)⟩

/-- C3: for an identifier that does not occur in the loaded edge list (so for any
identifier when the list is empty), `getVecinos` returns the empty sequence,
`BFS` returns the empty sequence for every depth bound, and `obtenerGrado`
returns 0. -/
theorem consultas_nodo_desconocido (es : List (Int × Int)) (x : Int) (hx : ¬ EsNodo es x) :
    getVecinos (cargar es) x = [] ∧
    (∀ (maxDepth : Int) (pasos : Nat), BFS (cargar es) x maxDepth pasos = some []) ∧
    obtenerGrado (cargar es) x = 0 := by
  have h := nodoAIdx_none es x hx
  refine ⟨?_, fun D pasos => BFS_desconocido _ x D pasos h, ?_⟩
  · rw [getVecinos_eq, if_pos h]
  · unfold obtenerGrado; simp [h]

theorem consultas_nodo_desconocido_witness :
    ¬ EsNodo [(10, 20)] 99 ∧
    getVecinos (cargar [(10, 20)]) 99 = [] ∧
    (∀ (maxDepth : Int) (pasos : Nat), BFS (cargar [(10, 20)]) 99 maxDepth pasos = some []) ∧
    obtenerGrado (cargar [(10, 20)]) 99 = 0 :=
  ⟨by decide, consultas_nodo_desconocido [(10, 20)] 99 (by decide)⟩

/-- C4: on the graph loaded from any edge list and for every identifier `n`,
known or not, `obtenerGrado n` is the length of `getVecinos n`, and every
identifier in `getVecinos n` is a known node: `nodoAIdx` finds it and returns an
index in `[0, numNodos)`. -/
theorem grado_y_vecinos (es : List (Int × Int)) (n : Int) :
    obtenerGrado (cargar es) n = ((getVecinos (cargar es) n).length : Int) ∧
    ∀ d ∈ getVecinos (cargar es) n,
      (mapFind d (cargar es).nodoAIndice).isSome ∧ nodoAIdx (cargar es) d ≠ -1 ∧
      0 ≤ nodoAIdx (cargar es) d ∧ nodoAIdx (cargar es) d < getNumNodos (cargar es) := by
  refine ⟨obtenerGrado_eq_length es n, ?_⟩
  intro d hd
  have hdn : EsNodo es d := ⟨(n, d), (mem_getVecinos es n d).1 hd, Or.inr rfl⟩
  have r := nodoAIdx_rango es d hdn
  obtain ⟨i, hi, hget, _⟩ := nodoAIdx_known es d hdn
  have hf := conMapeo_find_get es i hi
  rw [hget] at hf
  refine ⟨?_, by omega, r.1, ?_⟩
  · show (mapFind d (conMapeo es).nodoAIndice).isSome
    rw [hf]; rfl
  · unfold getNumNodos; rw [cargar_numNodos]; exact r.2.1

theorem grado_y_vecinos_witness :
    obtenerGrado (cargar [(1, 2), (1, 3), (2, 3), (3, 1)]) 1 = 2 ∧
    nodoAIdx (cargar [(1, 2), (1, 3), (2, 3), (3, 1)]) 3 ≠ -1 :=
  ⟨(grado_y_vecinos [(1, 2), (1, 3), (2, 3), (3, 1)] 1).1,
   ((grado_y_vecinos [(1, 2), (1, 3), (2, 3), (3, 1)] 1).2 3 (by decide)).2.1⟩

/-- C5: on the graph loaded from any edge list and for every identifier `n` (in
particular every node), `d` occurs in `getVecinos n` exactly when the pair
`(n, d)` occurs in the edge list; this covers the self-loop `(n, n)`; and when
`n` is never an origin, `getVecinos n` is empty and `obtenerGrado n` is 0. -/
theorem vecinos_son_aristas (es : List (Int × Int)) (n : Int) :
    (∀ d, d ∈ getVecinos (cargar es) n ↔ (n, d) ∈ es) ∧
    (n ∈ getVecinos (cargar es) n ↔ (n, n) ∈ es) ∧
    ((∀ d, (n, d) ∉ es) → getVecinos (cargar es) n = [] ∧ obtenerGrado (cargar es) n = 0) := by
  refine ⟨fun d => mem_getVecinos es n d, mem_getVecinos es n n, ?_⟩
  intro h
  have hv : getVecinos (cargar es) n = [] := by
    apply List.eq_nil_iff_forall_not_mem.2
    intro d hd
    exact h d ((mem_getVecinos es n d).1 hd)
  refine ⟨hv, ?_⟩
  rw [obtenerGrado_eq_length, hv]; rfl

theorem vecinos_son_aristas_witness :
    (∀ d : Int, ((2 : Int), d) ∉ [((1 : Int), (2 : Int)), (1, 1)]) ∧
    getVecinos (cargar [(1, 2), (1, 1)]) 2 = [] ∧ obtenerGrado (cargar [(1, 2), (1, 1)]) 2 = 0 :=
  ⟨fun d h => by simp at h,
   (vecinos_son_aristas [(1, 2), (1, 1)] 2).2.2 (fun d h => by simp at h)⟩

/-- C6: on the graph loaded from any edge list, with any number of repeated
pairs, `getVecinos n` is strictly ascending, so a destination `d` of a supplied
pair `(n, d)` occurs in it exactly once. -/
theorem vecinos_estrictamente_ascendentes (es : List (Int × Int)) (n : Int) :
    (getVecinos (cargar es) n).Sorted (· < ·) ∧
    ∀ d, (n, d) ∈ es → (getVecinos (cargar es) n).count d = 1 := by
  have hs := getVecinos_sorted es n
  refine ⟨hs, fun d hd => ?_⟩
  exact List.count_eq_one_of_mem hs.nodup ((mem_getVecinos es n d).2 hd)

theorem vecinos_estrictamente_ascendentes_witness :
    ((1 : Int), (2 : Int)) ∈ [((1 : Int), (2 : Int)), (1, 2), (1, 0)] ∧
    (getVecinos (cargar [(1, 2), (1, 2), (1, 0)]) 1).count 2 = 1 :=
  ⟨by decide, (vecinos_estrictamente_ascendentes [(1, 2), (1, 2), (1, 0)] 1).2 2 (by decide)⟩

/-- C7: after one load on a fresh graph, `getNumNodos` is the number of distinct
identifiers occurring as origin or destination, and `getNumAristas` is the number
of pairs supplied, repetitions counted; for the empty list both are 0.  The
pair count is not the size of the deduplicated adjacency: loading `(1, 2)` twice
gives `getNumAristas = 2` with a single entry in `col_indices`. -/
theorem cuenta_nodos_y_aristas (es : List (Int × Int)) :
    getNumNodos (cargar es) = ((es.map Prod.fst ++ es.map Prod.snd).toFinset.card : Int) ∧
    getNumAristas (cargar es) = (es.length : Int) ∧
    getNumNodos (cargar []) = 0 ∧ getNumAristas (cargar []) = 0 ∧
    getNumAristas (cargar [(1, 2), (1, 2)]) = 2 ∧
    (cargar [(1, 2), (1, 2)]).col_indices.length = 1 := by
  refine ⟨?_, ?_, by decide, by decide, by decide, by decide⟩
  · unfold getNumNodos; rw [cargar_numNodos, nodosUnicos_card]
  · unfold getNumAristas; rw [cargar_numAristas]

/-- C8: after one load on a fresh graph, `idxANodo (nodoAIdx x) = x` for every
identifier `x` occurring in the edge list, and `nodoAIdx (idxANodo i) = i` for
every internal index `0 ≤ i < numNodos`. -/
theorem ida_y_vuelta (es : List (Int × Int)) :
    (∀ x, EsNodo es x → idxANodo (cargar es) (nodoAIdx (cargar es) x) = x) ∧
    (∀ i : Int, 0 ≤ i → i < getNumNodos (cargar es) →
      nodoAIdx (cargar es) (idxANodo (cargar es) i) = i) := by
  refine ⟨fun x hx => (nodoAIdx_rango es x hx).2.2, ?_⟩
  intro i h0 h1
  unfold getNumNodos at h1
  rw [cargar_numNodos] at h1
  exact (idxANodo_rango es i h0 h1).2

theorem ida_y_vuelta_witness :
    EsNodo [(30, 10), (10, 20)] 20 ∧
    idxANodo (cargar [(30, 10), (10, 20)]) (nodoAIdx (cargar [(30, 10), (10, 20)]) 20) = 20 ∧
    (0 : Int) ≤ 2 ∧ (2 : Int) < getNumNodos (cargar [(30, 10), (10, 20)]) ∧
    nodoAIdx (cargar [(30, 10), (10, 20)]) (idxANodo (cargar [(30, 10), (10, 20)]) 2) = 2 :=
  ⟨by decide, (ida_y_vuelta [(30, 10), (10, 20)]).1 20 (by decide), by decide, by decide,
    (ida_y_vuelta [(30, 10), (10, 20)]).2 2 (by decide) (by decide)⟩

/-- C9: `getNodoMayorGrado` returns `(-1, 0)` on the graph loaded from the empty
edge list; otherwise it returns `(id, g)` where `id` is a node, `g ≥ 1` is the
maximum of `obtenerGrado` over all identifiers, `obtenerGrado id = g`, and `id`
is the smallest identifier whose degree is `g`. -/
theorem nodo_mayor_grado (es : List (Int × Int)) :
    (es = [] → getNodoMayorGrado (cargar es) = (-1, 0)) ∧
    (es ≠ [] →
      EsNodo es (getNodoMayorGrado (cargar es)).1 ∧
      1 ≤ (getNodoMayorGrado (cargar es)).2 ∧
      obtenerGrado (cargar es) (getNodoMayorGrado (cargar es)).1 =
        (getNodoMayorGrado (cargar es)).2 ∧
      (∀ n, obtenerGrado (cargar es) n ≤ (getNodoMayorGrado (cargar es)).2) ∧
      (∀ n, obtenerGrado (cargar es) n = (getNodoMayorGrado (cargar es)).2 →
        (getNodoMayorGrado (cargar es)).1 ≤ n)) :=
  mayorGrado_spec es

theorem nodo_mayor_grado_witness :
    getNodoMayorGrado (cargar []) = (-1, 0) ∧
    ([((5 : Int), (1 : Int)), (3, 1), (3, 5), (5, 3)] ≠ [] ∧
      (getNodoMayorGrado (cargar [(5, 1), (3, 1), (3, 5), (5, 3)])).1 ≤ 5) :=
  ⟨(nodo_mayor_grado []).1 rfl,
   by decide,
   ((nodo_mayor_grado [(5, 1), (3, 1), (3, 5), (5, 3)]).2 (by decide)).2.2.2.2 5 (by decide)⟩

/-- C10: `BFS` terminates on the graph loaded from any edge list (cycles and
self-loops included), for every start identifier and every depth bound: as many
loop iterations as there are nodes always suffice, more iterations do not
change the result, and since an index is assigned a distance (and enqueued) at
most once, no identifier is reported twice and the result has at most as many
elements as there are nodes. -/
theorem bfs_termina (es : List (Int × Int)) (start maxDepth : Int) (pasos : Nat)
    (hp : getNumNodos (cargar es) ≤ (pasos : Int)) :
    ∃ r, BFS (cargar es) start maxDepth pasos = some r ∧
      (∀ mas : Nat, BFS (cargar es) start maxDepth (pasos + mas) = some r) ∧
      (r.map Prod.fst).Nodup ∧
      (r.length : Int) ≤ getNumNodos (cargar es) := by
  by_cases hs : EsNodo es start
  · obtain ⟨st, hecho, h1, h2, h3⟩ :=
      BFS_inv es start maxDepth hs pasos (numNodos_toNat es pasos hp)
    refine ⟨st.resultado, h1, fun mas => BFS_mas _ _ _ _ mas _ h1,
      primeros_nodup es start maxDepth _ _ _ h2.base, ?_⟩
    have hl := largo_orden _ _ h2.base.nodup h2.base.rango
    rw [h2.base.res_eq, List.length_map]
    unfold getNumNodos
    rw [cargar_numNodos]
    omega
  · have h := BFS_desconocido (cargar es) start maxDepth pasos (nodoAIdx_none es start hs)
    refine ⟨[], h, fun mas => BFS_mas _ _ _ _ mas _ h, List.nodup_nil, ?_⟩
    unfold getNumNodos
    rw [cargar_numNodos]
    simp

theorem bfs_termina_witness :
    getNumNodos (cargar [(1, 2), (2, 1), (2, 2), (2, 3)]) ≤ ((3 : Nat) : Int) ∧
    ∃ r, BFS (cargar [(1, 2), (2, 1), (2, 2), (2, 3)]) 1 7 3 = some r ∧
      (∀ mas : Nat, BFS (cargar [(1, 2), (2, 1), (2, 2), (2, 3)]) 1 7 (3 + mas) = some r) ∧
      (r.map Prod.fst).Nodup ∧
      (r.length : Int) ≤ getNumNodos (cargar [(1, 2), (2, 1), (2, 2), (2, 3)]) :=
  ⟨by decide, bfs_termina [(1, 2), (2, 1), (2, 2), (2, 3)] 1 7 3 (by decide)⟩

theorem camino_esNodo (es : List (Int × Int)) (x y : Int) (n : Nat) (h : Camino es x y n) :
    EsNodo es y := by
  cases h with
  | inicio hx => exact hx
  | paso w _ n _ hyz => exact ⟨(w, y), hyz, Or.inr rfl⟩

/-- The distances reported by the traversal are those recorded for the
discovery order. -/
theorem segundos_eq (es : List (Int × Int)) (xs D : Int) (dist : List Int)
    (res : List (Int × Int)) (orden : List Int) (hb : Base es xs D dist res orden) :
    res.map Prod.snd = orden.map (vecGet dist) := by
  rw [hb.res_eq, List.map_map]
  rfl

/-- The final state of a traversal from a known start: the discovery order
`orden` satisfies `Base`, and every discovered index closer than the depth bound
has all its neighbours discovered. -/
theorem BFS_final (es : List (Int × Int)) (xs D : Int) (hxs : EsNodo es xs) (pasos : Nat)
    (hp : (nodosUnicos es).length ≤ pasos) :
    ∃ (st : BFSEstado) (orden : List Int), BFS (cargar es) xs D pasos = some st.resultado ∧
      Base es xs D st.distancia st.resultado orden ∧
      ∀ x ∈ orden, vecGet st.distancia x < D → ∀ w ∈ vecinosIdx (cargar es) x, w ∈ orden := by
  obtain ⟨st, hecho, h1, h2, h3⟩ := BFS_inv es xs D hxs pasos hp
  have hb := h2.base
  have he := h2.expandido
  rw [h3, List.append_nil] at hb he
  exact ⟨st, hecho, h1, hb, he⟩

theorem nodosUnicos_ext (es1 es2 : List (Int × Int))
    (h : ∀ x, EsNodo es1 x ↔ EsNodo es2 x) : nodosUnicos es1 = nodosUnicos es2 := by
  apply List.eq_of_perm_of_sorted (r := (· < ·)) ?_ (nodosUnicos_sorted es1)
    (nodosUnicos_sorted es2)
  rw [List.perm_ext_iff_of_nodup (nodosUnicos_nodup es1) (nodosUnicos_nodup es2)]
  intro x
  rw [mem_nodosUnicos, mem_nodosUnicos]
  exact h x

theorem nodoAIdx_ext (es1 es2 : List (Int × Int))
    (h : ∀ x, EsNodo es1 x ↔ EsNodo es2 x) (x : Int) :
    nodoAIdx (cargar es1) x = nodoAIdx (cargar es2) x := by
  have hn := nodosUnicos_ext es1 es2 h
  by_cases hx : EsNodo es1 x
  · obtain ⟨i, hi, hget, hidx⟩ := nodoAIdx_known es1 x hx
    have hi2 : i < (nodosUnicos es2).length := by rw [← hn]; exact hi
    have hget2 : (nodosUnicos es2).get ⟨i, hi2⟩ = x := by
      rw [← hget]; simp only [List.get_eq_getElem]; congr 1; exact hn.symm
    have := nodoAIdx_get es2 i hi2
    rw [hget2] at this
    rw [hidx, this]
  · rw [nodoAIdx_none es1 x hx, nodoAIdx_none es2 x (fun h2 => hx ((h x).2 h2))]

theorem nodoAIdx_lt (es : List (Int × Int)) (x y : Int) (hx : EsNodo es x) (hy : EsNodo es y)
    (hxy : x < y) : nodoAIdx (cargar es) x < nodoAIdx (cargar es) y := by
  have rx := nodoAIdx_rango es x hx
  have ry := nodoAIdx_rango es y hy
  by_contra hc
  rcases lt_or_eq_of_le (not_lt.1 hc) with h | h
  · have := idxANodo_lt es _ _ ry.1 h rx.2.1
    rw [rx.2.2, ry.2.2] at this
    omega
  · have : x = y := by rw [← rx.2.2, ← ry.2.2, h]
    omega

/-- C11: when the source cannot be opened, `cargarDatos` returns `false` and
leaves the graph, hence each of its fields `row_ptr`, `col_indices`, `numNodos`,
`numAristas`, `nodoAIndice` and `indiceANodo`, exactly as it was, whatever the
prior state. -/
theorem carga_fallida_no_modifica (g : GrafoDisperso) :
    (cargarDatos g none).1 = false ∧ (cargarDatos g none).2 = g ∧
    (cargarDatos g none).2.row_ptr = g.row_ptr ∧
    (cargarDatos g none).2.col_indices = g.col_indices ∧
    (cargarDatos g none).2.numNodos = g.numNodos ∧
    (cargarDatos g none).2.numAristas = g.numAristas ∧
    (cargarDatos g none).2.nodoAIndice = g.nodoAIndice ∧
    (cargarDatos g none).2.indiceANodo = g.indiceANodo :=
  ⟨rfl, rfl, rfl, rfl, rfl, rfl, rfl, rfl⟩

/-- C15: after one load on a fresh graph, `nodoAIdx` maps the identifiers of the
edge list one-to-one onto `[0, numNodos)` and is strictly order-preserving, so
`indiceANodo` is strictly ascending; two edge lists with the same set of
identifiers (for instance the same pairs in another order) yield the same
`indiceANodo` and the same `nodoAIdx`. -/
theorem indices_en_orden_ascendente (es : List (Int × Int)) :
    (∀ x, EsNodo es x →
      0 ≤ nodoAIdx (cargar es) x ∧ nodoAIdx (cargar es) x < getNumNodos (cargar es)) ∧
    (∀ x y, EsNodo es x → EsNodo es y →
      nodoAIdx (cargar es) x = nodoAIdx (cargar es) y → x = y) ∧
    (∀ i : Int, 0 ≤ i → i < getNumNodos (cargar es) →
      ∃ x, EsNodo es x ∧ nodoAIdx (cargar es) x = i) ∧
    (∀ x y, EsNodo es x → EsNodo es y → x < y →
      nodoAIdx (cargar es) x < nodoAIdx (cargar es) y) ∧
    (cargar es).indiceANodo.Sorted (· < ·) ∧
    (∀ es2 : List (Int × Int), (∀ x, EsNodo es x ↔ EsNodo es2 x) →
      (cargar es2).indiceANodo = (cargar es).indiceANodo ∧
      ∀ x, nodoAIdx (cargar es2) x = nodoAIdx (cargar es) x) := by
  have hN : getNumNodos (cargar es) = ((nodosUnicos es).length : Int) := by
    unfold getNumNodos; exact cargar_numNodos es
  refine ⟨?_, ?_, ?_, nodoAIdx_lt es, ?_, ?_⟩
  · intro x hx
    have r := nodoAIdx_rango es x hx
    rw [hN]; exact ⟨r.1, r.2.1⟩
  · intro x y hx hy h
    rw [← (nodoAIdx_rango es x hx).2.2, ← (nodoAIdx_rango es y hy).2.2, h]
  · intro i h0 h1
    rw [hN] at h1
    have r := idxANodo_rango es i h0 h1
    exact ⟨_, r.1, r.2⟩
  · rw [cargar_indiceANodo]; exact nodosUnicos_sorted es
  · intro es2 h
    refine ⟨?_, fun x => (nodoAIdx_ext es es2 h x).symm⟩
    rw [cargar_indiceANodo, cargar_indiceANodo, nodosUnicos_ext es es2 h]

theorem indices_en_orden_ascendente_witness :
    EsNodo [(30, 10), (10, 20)] 10 ∧ EsNodo [(30, 10), (10, 20)] 30 ∧ (10 : Int) < 30 ∧
    nodoAIdx (cargar [(30, 10), (10, 20)]) 10 < nodoAIdx (cargar [(30, 10), (10, 20)]) 30 ∧
    (cargar [(10, 20), (30, 10)]).indiceANodo = (cargar [(30, 10), (10, 20)]).indiceANodo :=
  ⟨by decide, by decide, by decide,
   (indices_en_orden_ascendente [(30, 10), (10, 20)]).2.2.2.1 10 30 (by decide) (by decide)
     (by decide),
   ((indices_en_orden_ascendente [(30, 10), (10, 20)]).2.2.2.2.2 [(10, 20), (30, 10)]
     (by intro x; simp only [EsNodo, List.mem_cons, List.mem_singleton, List.not_mem_nil,
        or_false, exists_eq_or_imp, exists_eq_left]; tauto)).1⟩

/-- C16: on the graph loaded from any edge list, for a known start node and any
depth bound, no identifier occurs in more than one element of the sequence
returned by `BFS`. -/
theorem bfs_sin_repetidos (es : List (Int × Int)) (start maxDepth : Int)
    (hs : EsNodo es start) (pasos : Nat) (hp : getNumNodos (cargar es) ≤ (pasos : Int)) :
    ∃ r, BFS (cargar es) start maxDepth pasos = some r ∧ (r.map Prod.fst).Nodup := by
  obtain ⟨st, orden, h1, hb, _⟩ :=
    BFS_final es start maxDepth hs pasos (numNodos_toNat es pasos hp)
  exact ⟨st.resultado, h1, primeros_nodup es start maxDepth _ _ _ hb⟩

theorem bfs_sin_repetidos_witness :
    EsNodo [(1, 2), (2, 1), (2, 2), (2, 3), (3, 1)] 1 ∧
    getNumNodos (cargar [(1, 2), (2, 1), (2, 2), (2, 3), (3, 1)]) ≤ ((3 : Nat) : Int) ∧
    ∃ r, BFS (cargar [(1, 2), (2, 1), (2, 2), (2, 3), (3, 1)]) 1 4 3 = some r ∧
      (r.map Prod.fst).Nodup :=
  ⟨by decide, by decide,
   bfs_sin_repetidos [(1, 2), (2, 1), (2, 2), (2, 3), (3, 1)] 1 4 (by decide) 3 (by decide)⟩

/-- C17: on the graph loaded from any edge list, for a known start node and any
depth bound, the distances in the sequence returned by `BFS` are non-decreasing
along the sequence and each exceeds its predecessor by at most 1. -/
theorem bfs_distancias_por_capas (es : List (Int × Int)) (start maxDepth : Int)
    (hs : EsNodo es start) (pasos : Nat) (hp : getNumNodos (cargar es) ≤ (pasos : Int)) :
    ∃ r, BFS (cargar es) start maxDepth pasos = some r ∧
      (r.map Prod.snd).Sorted (· ≤ ·) ∧
      (r.map Prod.snd).Chain' (fun a b => a ≤ b ∧ b ≤ a + 1) := by
  obtain ⟨st, orden, h1, hb, _⟩ :=
    BFS_final es start maxDepth hs pasos (numNodos_toNat es pasos hp)
  have hsorted : (st.resultado.map Prod.snd).Sorted (· ≤ ·) := by
    rw [segundos_eq es start maxDepth _ _ _ hb]
    unfold List.Sorted
    rw [List.pairwise_map]
    exact hb.creciente
  refine ⟨st.resultado, h1, hsorted, ?_⟩
  have hc1 : (st.resultado.map Prod.snd).Chain' (fun a b => a ≤ b) :=
    List.Pairwise.chain' hsorted
  have hc2 : (st.resultado.map Prod.snd).Chain' (fun a b => b ≤ a + 1) := by
    rw [segundos_eq es start maxDepth _ _ _ hb]; exact hb.escalon
  rw [List.chain'_iff_get] at hc1 hc2 ⊢
  intro i hi
  exact ⟨hc1 i hi, hc2 i hi⟩

theorem bfs_distancias_por_capas_witness :
    EsNodo [(1, 2), (2, 3), (3, 4), (1, 5)] 1 ∧
    getNumNodos (cargar [(1, 2), (2, 3), (3, 4), (1, 5)]) ≤ ((5 : Nat) : Int) ∧
    ∃ r, BFS (cargar [(1, 2), (2, 3), (3, 4), (1, 5)]) 1 2 5 = some r ∧
      (r.map Prod.snd).Sorted (· ≤ ·) ∧
      (r.map Prod.snd).Chain' (fun a b => a ≤ b ∧ b ≤ a + 1) :=
  ⟨by decide, by decide,
   bfs_distancias_por_capas [(1, 2), (2, 3), (3, 4), (1, 5)] 1 2 (by decide) 5 (by decide)⟩

/-- C19: on the graph loaded from any edge list, for a known start node, every
node whose shortest hop count `d` from the start is at most `maxDepth` occurs in
the sequence returned by `BFS`, paired with `d`; this includes `d = maxDepth`. -/
theorem bfs_completo (es : List (Int × Int)) (start maxDepth : Int)
    (hs : EsNodo es start) (pasos : Nat) (hp : getNumNodos (cargar es) ≤ (pasos : Int)) :
    ∃ r, BFS (cargar es) start maxDepth pasos = some r ∧
      ∀ y d, DistanciaMinima es start y d → d ≤ maxDepth → (y, d) ∈ r := by
  obtain ⟨st, orden, h1, hb, hexp⟩ :=
    BFS_final es start maxDepth hs pasos (numNodos_toNat es pasos hp)
  refine ⟨st.resultado, h1, ?_⟩
  rintro y d ⟨⟨n, hn, hc⟩, hmin⟩ hd
  have hy : EsNodo es y := camino_esNodo es start y n hc
  have ry := nodoAIdx_rango es y hy
  have hm := alcance es start maxDepth _ _ _ hb maxDepth hexp y n hc (by omega)
  obtain ⟨k, hk, hck⟩ := hb.camino _ hm
  rw [ry.2.2] at hck
  have h2 := hb.minimo _ hm n (by rw [ry.2.2]; exact hc)
  have h3 := hmin k hck
  rw [hb.res_eq, List.mem_map]
  refine ⟨nodoAIdx (cargar es) y, hm, ?_⟩
  rw [ry.2.2]
  congr 1
  omega

theorem bfs_completo_witness :
    EsNodo [(1, 2), (2, 3), (3, 4)] 1 ∧
    getNumNodos (cargar [(1, 2), (2, 3), (3, 4)]) ≤ ((4 : Nat) : Int) ∧
    ∃ r, BFS (cargar [(1, 2), (2, 3), (3, 4)]) 1 2 4 = some r ∧
      ∀ y d, DistanciaMinima [(1, 2), (2, 3), (3, 4)] 1 y d → d ≤ 2 → (y, d) ∈ r :=
  ⟨by decide, by decide, bfs_completo [(1, 2), (2, 3), (3, 4)] 1 2 (by decide) 4 (by decide)⟩

theorem foldl_append_flatten {α β : Type} (f : α → List β) (l : List α) (init : List β) :
    l.foldl (fun acc i => acc ++ f i) init = init ++ (l.map f).flatten := by
  induction l generalizing init with
  | nil => simp
  | cons a l ih => simp [ih]

theorem getTodasLasAristas_eq (g : GrafoDisperso) :
    getTodasLasAristas g =
      ((List.range g.numNodos.toNat).map (fun i : Nat =>
        (vecinosIdx g (i : Int)).map (fun w => (idxANodo g (i : Int), idxANodo g w)))).flatten := by
  unfold getTodasLasAristas
  have h : ∀ (aristas : List (Int × Int)) (i : Nat),
      (posiciones (vecGet g.row_ptr (i : Int)) (vecGet g.row_ptr ((i : Int) + 1))).foldl
        (fun acc j => acc ++ [(idxANodo g (i : Int), idxANodo g (vecGet g.col_indices j))])
        aristas =
      aristas ++ (vecinosIdx g (i : Int)).map (fun w => (idxANodo g (i : Int), idxANodo g w)) := by
    intro aristas i
    rw [foldl_snoc_map (fun j => (idxANodo g (i : Int), idxANodo g (vecGet g.col_indices j)))]
    simp [vecinosIdx]
  simp only [h]
  rw [foldl_append_flatten]
  simp

theorem numNodos_cargar_toNat (es : List (Int × Int)) :
    (cargar es).numNodos.toNat = (nodosUnicos es).length := by
  rw [cargar_numNodos]; simp

theorem mem_getTodasLasAristas (es : List (Int × Int)) (p : Int × Int) :
    p ∈ getTodasLasAristas (cargar es) ↔ p ∈ es := by
  rw [getTodasLasAristas_eq, numNodos_cargar_toNat]
  simp only [List.mem_flatten, List.mem_map, List.mem_range]
  constructor
  · rintro ⟨l, ⟨i, hi, rfl⟩, hp⟩
    rw [List.mem_map] at hp
    obtain ⟨w, hw, rfl⟩ := hp
    exact (vecinosIdx_arista es (i : Int) w (by omega) (by omega) hw).2.2
  · intro hp
    obtain ⟨i, hi, _, hidx⟩ := nodoAIdx_known es p.1 ⟨p, hp, Or.inl rfl⟩
    have r1 := nodoAIdx_rango es p.1 ⟨p, hp, Or.inl rfl⟩
    have r2 := nodoAIdx_rango es p.2 ⟨p, hp, Or.inr rfl⟩
    refine ⟨_, ⟨i, hi, rfl⟩, ?_⟩
    rw [List.mem_map]
    refine ⟨nodoAIdx (cargar es) p.2, ?_, ?_⟩
    · rw [← hidx]; exact arista_vecinosIdx es p.1 p.2 hp
    · rw [← hidx, r1.2.2, r2.2.2]

theorem getTodasLasAristas_sorted (es : List (Int × Int)) :
    (getTodasLasAristas (cargar es)).Pairwise LexMenor := by
  rw [getTodasLasAristas_eq, numNodos_cargar_toNat, List.pairwise_flatten]
  constructor
  · intro l hl
    rw [List.mem_map] at hl
    obtain ⟨i, hi, rfl⟩ := hl
    rw [List.mem_range] at hi
    rw [List.pairwise_map]
    have hs := vecinosIdx_sorted es (i : Int) (by omega) (by omega)
    refine List.Pairwise.imp_of_mem ?_ hs
    intro a b ha hb hab
    right
    have ra := vecinosIdx_arista es (i : Int) a (by omega) (by omega) ha
    have rb := vecinosIdx_arista es (i : Int) b (by omega) (by omega) hb
    exact ⟨rfl, idxANodo_lt es a b ra.1 hab rb.2.1⟩
  · rw [List.pairwise_map]
    refine List.Pairwise.imp_of_mem ?_ (List.pairwise_lt_range _)
    intro i j hi hj hij p hp q hq
    rw [List.mem_range] at hi hj
    rw [List.mem_map] at hp hq
    obtain ⟨a, _, rfl⟩ := hp
    obtain ⟨b, _, rfl⟩ := hq
    left
    exact idxANodo_lt es (i : Int) (j : Int) (by omega) (by omega) (by omega)

theorem lexMenor_irrefl (p : Int × Int) : ¬ LexMenor p p := by
  unfold LexMenor; omega

theorem getTodasLasAristas_nodup (es : List (Int × Int)) :
    (getTodasLasAristas (cargar es)).Nodup := by
  refine List.Pairwise.imp_of_mem ?_ (getTodasLasAristas_sorted es)
  intro a b _ _ hab e
  subst e
  exact lexMenor_irrefl a hab

theorem listaCSR_eq_map (es : List (Int × Int)) :
    listaCSR es = (List.range (nodosUnicos es).length).map (fun i => (listaCSR es).getD i []) := by
  apply List.ext_getElem
  · simp [listaCSR_length]
  · intro n h1 h2
    simp [List.getD_eq_getElem?_getD, List.getElem?_eq_getElem h1]

theorem getTodasLasAristas_length (es : List (Int × Int)) :
    (getTodasLasAristas (cargar es)).length = (cargar es).col_indices.length := by
  rw [getTodasLasAristas_eq, numNodos_cargar_toNat, (cargar_csr es).2.2]
  conv_rhs => rw [listaCSR_eq_map es]
  rw [List.length_flatten, List.length_flatten, List.map_map, List.map_map]
  congr 1
  apply List.map_congr_left
  intro i hi
  rw [List.mem_range] at hi
  simp only [Function.comp, List.length_map]
  rw [vecinosIdx_cargar es i hi]

theorem col_indices_length (es : List (Int × Int)) :
    vecGet (cargar es).row_ptr ((nodosUnicos es).length : Int) =
      ((cargar es).col_indices.length : Int) := by
  obtain ⟨_, h2, h3⟩ := cargar_csr es
  rw [h2 _ (le_refl _), h3]
  unfold desplazamiento
  rw [← listaCSR_length, List.take_length]

theorem length_eq_card (es : List (Int × Int)) :
    (getTodasLasAristas (cargar es)).length = es.toFinset.card := by
  rw [← List.toFinset_card_of_nodup (getTodasLasAristas_nodup es)]
  congr 1
  ext p
  simp only [List.mem_toFinset, mem_getTodasLasAristas]

theorem desplazamiento_mono (lista : List (List Int)) (i j : Nat) (hij : i ≤ j)
    (hj : j ≤ lista.length) : desplazamiento lista i ≤ desplazamiento lista j := by
  induction j with
  | zero =>
    have : i = 0 := by omega
    subst this; exact le_refl _
  | succ j ih =>
    rcases Nat.lt_or_eq_of_le hij with h | h
    · have := ih (by omega) (by omega)
      rw [desplazamiento_succ lista j (by omega)]
      omega
    · subst h; exact le_refl _

theorem vecGet_getElem (v : List Int) (i : Nat) (h : i < v.length) :
    vecGet v (i : Int) = v[i] := by
  simp [vecGet, List.getD_eq_getElem?_getD, List.getElem?_eq_getElem h]

theorem row_ptr_sorted (es : List (Int × Int)) : (cargar es).row_ptr.Sorted (· ≤ ·) := by
  obtain ⟨h1, h2, _⟩ := cargar_csr es
  unfold List.Sorted
  rw [List.pairwise_iff_getElem]
  intro i j hi hj hij
  rw [← vecGet_getElem _ i hi, ← vecGet_getElem _ j hj, h2 i (by omega), h2 j (by omega)]
  have := desplazamiento_mono (listaCSR es) i j (by omega) (by rw [listaCSR_length]; omega)
  omega

theorem mem_col_indices (es : List (Int × Int)) (w : Int) (hw : w ∈ (cargar es).col_indices) :
    0 ≤ w ∧ w < ((nodosUnicos es).length : Int) := by
  rw [(cargar_csr es).2.2, listaCSR_eq_map es, List.mem_flatten] at hw
  obtain ⟨l, hl, hwl⟩ := hw
  rw [List.mem_map] at hl
  obtain ⟨i, hi, rfl⟩ := hl
  rw [List.mem_range] at hi
  rw [← vecinosIdx_cargar es i hi] at hwl
  have := vecinosIdx_arista es (i : Int) w (by omega) (by omega) hwl
  exact ⟨this.1, this.2.1⟩

theorem flatten_drop_take (lista : List (List Int)) (i : Nat) (hi : i < lista.length) :
    (lista.flatten.drop (desplazamiento lista i)).take (lista.getD i []).length =
      lista.getD i [] := by
  induction lista generalizing i with
  | nil => simp at hi
  | cons l ls ih =>
    cases i with
    | zero =>
      simp only [desplazamiento, List.take_zero, List.flatten_nil, List.length_nil,
        List.drop_zero, List.flatten_cons, List.getD_cons_zero]
      exact List.take_left l _
    | succ i =>
      have hi2 : i < ls.length := by simpa using hi
      have e : desplazamiento (l :: ls) (i + 1) = l.length + desplazamiento ls i := by
        simp [desplazamiento]
      rw [e, List.flatten_cons, List.drop_append, List.getD_cons_succ]
      exact ih i hi2

/-- The slice `col_indices[row_ptr[i] .. row_ptr[i+1])` of the loaded graph is the
row that the traversals read. -/
theorem rebanada_cargar (es : List (Int × Int)) (i : Nat) (hi : i < (nodosUnicos es).length) :
    ((cargar es).col_indices.drop (vecGet (cargar es).row_ptr (i : Int)).toNat).take
        (vecGet (cargar es).row_ptr ((i : Int) + 1) -
          vecGet (cargar es).row_ptr (i : Int)).toNat =
      vecinosIdx (cargar es) (i : Int) := by
  obtain ⟨_, h2, h3⟩ := cargar_csr es
  have hi2 : i < (listaCSR es).length := by rw [listaCSR_length]; exact hi
  rw [grado_cargar es i hi, h2 i (by omega), h3, vecinosIdx_cargar es i hi]
  simp only [Int.toNat_ofNat]
  exact flatten_drop_take _ i hi2

/-- C13: on the graph loaded from any edge list, `getTodasLasAristas` returns a
duplicate-free sequence whose pairs are exactly the pairs of the edge list,
whose length is `row_ptr[N]`, and which is strictly ascending in the
lexicographic order of `(origin, destination)`. -/
theorem todas_las_aristas (es : List (Int × Int)) :
    (getTodasLasAristas (cargar es)).Nodup ∧
    (∀ p, p ∈ getTodasLasAristas (cargar es) ↔ p ∈ es) ∧
    ((getTodasLasAristas (cargar es)).length : Int) =
      vecGet (cargar es).row_ptr (getNumNodos (cargar es)) ∧
    (getTodasLasAristas (cargar es)).Sorted LexMenor := by
  refine ⟨getTodasLasAristas_nodup es, mem_getTodasLasAristas es, ?_,
    getTodasLasAristas_sorted es⟩
  unfold getNumNodos
  rw [cargar_numNodos, col_indices_length, getTodasLasAristas_length]

theorem todas_las_aristas_witness :
    getTodasLasAristas (cargar [(3, 1), (1, 2), (3, 1), (1, 1)]) = [(1, 1), (1, 2), (3, 1)] ∧
    ((3 : Int), (1 : Int)) ∈ getTodasLasAristas (cargar [(3, 1), (1, 2), (3, 1), (1, 1)]) :=
  ⟨by decide,
   ((todas_las_aristas [(3, 1), (1, 2), (3, 1), (1, 1)]).2.1 (3, 1)).2 (by decide)⟩

/-- C14: after one load on a fresh graph from an edge list with `N` distinct
identifiers, `row_ptr` has length `N + 1`, starts with 0 and is non-decreasing;
`row_ptr[N]` is the length of `col_indices`, which is the number of distinct
pairs of the input; every entry of `col_indices` lies in `[0, N)`; and for every
`0 ≤ i < N` the slice `col_indices[row_ptr[i] .. row_ptr[i+1])` is strictly
ascending. -/
theorem estructura_csr (es : List (Int × Int)) :
    getNumNodos (cargar es) = ((es.map Prod.fst ++ es.map Prod.snd).toFinset.card : Int) ∧
    ((cargar es).row_ptr.length : Int) = getNumNodos (cargar es) + 1 ∧
    vecGet (cargar es).row_ptr 0 = 0 ∧
    (cargar es).row_ptr.Sorted (· ≤ ·) ∧
    vecGet (cargar es).row_ptr (getNumNodos (cargar es)) =
      ((cargar es).col_indices.length : Int) ∧
    (cargar es).col_indices.length = es.toFinset.card ∧
    (∀ w ∈ (cargar es).col_indices, 0 ≤ w ∧ w < getNumNodos (cargar es)) ∧
    (∀ i : Int, 0 ≤ i → i < getNumNodos (cargar es) →
      (((cargar es).col_indices.drop (vecGet (cargar es).row_ptr i).toNat).take
        (vecGet (cargar es).row_ptr (i + 1) - vecGet (cargar es).row_ptr i).toNat).Sorted
          (· < ·)) := by
  have hN : getNumNodos (cargar es) = ((nodosUnicos es).length : Int) := by
    unfold getNumNodos; exact cargar_numNodos es
  obtain ⟨h1, h2, _⟩ := cargar_csr es
  refine ⟨?_, ?_, ?_, row_ptr_sorted es, ?_, ?_, ?_, ?_⟩
  · rw [hN, nodosUnicos_card]
  · rw [hN, h1]; push_cast; ring
  · have := h2 0 (Nat.zero_le _)
    simpa [desplazamiento] using this
  · rw [hN]; exact col_indices_length es
  · rw [← getTodasLasAristas_length, length_eq_card]
  · intro w hw
    rw [hN]; exact mem_col_indices es w hw
  · intro i h0 h1
    rw [hN] at h1
    obtain ⟨j, hj, rfl⟩ := idx_cast _ i h0 h1
    rw [rebanada_cargar es j hj]
    exact vecinosIdx_sorted es (j : Int) h0 h1

theorem estructura_csr_witness :
    (1 : Int) ∈ (cargar [(3, 1), (1, 2), (3, 1), (1, 1)]).col_indices ∧
    (1 : Int) < getNumNodos (cargar [(3, 1), (1, 2), (3, 1), (1, 1)]) ∧
    (((cargar [(3, 1), (1, 2), (3, 1), (1, 1)]).col_indices.drop
        (vecGet (cargar [(3, 1), (1, 2), (3, 1), (1, 1)]).row_ptr 0).toNat).take
      (vecGet (cargar [(3, 1), (1, 2), (3, 1), (1, 1)]).row_ptr (0 + 1) -
        vecGet (cargar [(3, 1), (1, 2), (3, 1), (1, 1)]).row_ptr 0).toNat).Sorted (· < ·) :=
  ⟨by decide,
   ((estructura_csr [(3, 1), (1, 2), (3, 1), (1, 1)]).2.2.2.2.2.2.1 1 (by decide)).2,
   (estructura_csr [(3, 1), (1, 2), (3, 1), (1, 1)]).2.2.2.2.2.2.2 0 (by decide) (by decide)⟩

theorem cargarDatos_eq (g : GrafoDisperso) (es : List (Int × Int)) :
    cargarDatos g (some es) = (true, construirCSR (trasMapeo g es) es) := rfl

theorem trasMapeo_spec (g : GrafoDisperso) (es : List (Int × Int)) :
    (trasMapeo g es).indiceANodo = g.indiceANodo ++ nodosUnicos es ∧
    (trasMapeo g es).numNodos = ((nodosUnicos es).length : Int) ∧
    (trasMapeo g es).numAristas = (es.length : Int) ∧
    (trasMapeo g es).row_ptr = g.row_ptr ∧
    (trasMapeo g es).col_indices = g.col_indices ∧
    (∀ i (h : i < (nodosUnicos es).length),
      mapFind ((nodosUnicos es).get ⟨i, h⟩) (trasMapeo g es).nodoAIndice = some (i : Int)) := by
  have h := mapeo_fold (nodosUnicos es) { g with numAristas := (es.length : Int), numNodos := ((nodosUnicos es).length : Int) } 0
  refine ⟨h.1, h.2.1, h.2.2.1, h.2.2.2.1, h.2.2.2.2.1, ?_⟩
  intro i hi
  have := h.2.2.2.2.2.2 (nodosUnicos_nodup es) i hi
  simpa [trasMapeo] using this

theorem mapeo_fold_indice (l : List Int) (g h : GrafoDisperso) (k : Int)
    (e : g.nodoAIndice = h.nodoAIndice) :
    (l.foldl mapeoPaso (g, k)).1.nodoAIndice = (l.foldl mapeoPaso (h, k)).1.nodoAIndice := by
  induction l generalizing g h k with
  | nil => exact e
  | cons a l ih =>
    simp only [List.foldl_cons]
    apply ih
    simp [mapeoPaso, e]

theorem nodoAIdx_trasMapeo (g : GrafoDisperso) (es : List (Int × Int)) (x : Int)
    (hx : EsNodo es x) : nodoAIdx (trasMapeo g es) x = nodoAIdx (cargar es) x := by
  obtain ⟨i, hi, hget, hidx⟩ := nodoAIdx_known es x hx
  rw [hidx]
  unfold nodoAIdx
  rw [← hget, (trasMapeo_spec g es).2.2.2.2.2 i hi]

theorem listaAdyacencia_trasMapeo (g : GrafoDisperso) (es : List (Int × Int)) :
    listaAdyacencia (trasMapeo g es) es = listaAdyacencia (conMapeo es) es := by
  unfold listaAdyacencia
  rw [(trasMapeo_spec g es).2.1, conMapeo_numNodos]
  apply List.foldl_ext
  intro lista a ha
  simp only []
  rw [nodoAIdx_trasMapeo g es a.1 ⟨a, ha, Or.inl rfl⟩,
    nodoAIdx_trasMapeo g es a.2 ⟨a, ha, Or.inr rfl⟩]
  rfl

theorem resize_length (v : List Int) (n : Nat) : (resize v n).length = n := by
  simp [resize]; omega

theorem recarga_csr (g : GrafoDisperso) (es : List (Int × Int)) :
    (construirCSR (trasMapeo g es) es).row_ptr = (cargar es).row_ptr ∧
    (construirCSR (trasMapeo g es) es).col_indices =
      g.col_indices ++ (cargar es).col_indices := by
  obtain ⟨_, hn, _, hr, hc, _⟩ := trasMapeo_spec g es
  have hl : (listaAdyacencia (trasMapeo g es) es).map (fun vecinos => unique (sortInts vecinos))
      = listaCSR es := by
    rw [listaAdyacencia_trasMapeo]; rfl
  have hrow : (construirCSR (trasMapeo g es) es).row_ptr =
      ((List.range (nodosUnicos es).length).foldl (csrPaso (listaCSR es))
        (vecSet (resize g.row_ptr ((nodosUnicos es).length + 1)) 0 0, g.col_indices)).1 := by
    unfold construirCSR
    simp only [hl, hn, hr, hc]
    rfl
  have hcol : (construirCSR (trasMapeo g es) es).col_indices =
      ((List.range (nodosUnicos es).length).foldl (csrPaso (listaCSR es))
        (vecSet (resize g.row_ptr ((nodosUnicos es).length + 1)) 0 0, g.col_indices)).2 := by
    unfold construirCSR
    simp only [hl, hn, hr, hc]
    rfl
  have h := csr_fold (listaCSR es)
    (vecSet (resize g.row_ptr ((nodosUnicos es).length + 1)) 0 0) g.col_indices
    (by rw [vecSet_length, resize_length, listaCSR_length])
    (by
      have := vecGet_vecSet (resize g.row_ptr ((nodosUnicos es).length + 1)) 0 0 0
        (by rw [resize_length]; omega)
      simpa using this)
    (nodosUnicos es).length (by rw [listaCSR_length])
  obtain ⟨f1, f2, f3⟩ := cargar_csr es
  constructor
  · rw [hrow]
    apply List.ext_getElem
    · rw [h.1, f1, listaCSR_length]
    · intro n h1 h2
      have hn2 : n ≤ (nodosUnicos es).length := by rw [f1] at h2; omega
      rw [← vecGet_getElem _ n h1, ← vecGet_getElem _ n h2, h.2.1 n hn2, f2 n hn2]
  · rw [hcol, h.2.2, f3, ← listaCSR_length, List.take_length]

theorem grafo_ext (a b : GrafoDisperso) (h1 : a.row_ptr = b.row_ptr)
    (h2 : a.col_indices = b.col_indices) (h3 : a.numNodos = b.numNodos)
    (h4 : a.numAristas = b.numAristas) (h5 : a.nodoAIndice = b.nodoAIndice)
    (h6 : a.indiceANodo = b.indiceANodo) : a = b := by
  cases a; cases b; simp_all

theorem recarga_vacia (g : GrafoDisperso) (es : List (Int × Int)) (hc : g.col_indices = [])
    (hi : g.indiceANodo = []) (hm : g.nodoAIndice = []) :
    construirCSR (trasMapeo g es) es = cargar es := by
  obtain ⟨t1, t2, t3, _, _, _⟩ := trasMapeo_spec g es
  obtain ⟨r1, r2⟩ := recarga_csr g es
  apply grafo_ext
  · exact r1
  · rw [r2, hc, List.nil_append]
  · rw [construirCSR_numNodos, t2, cargar_numNodos]
  · rw [construirCSR_numAristas, t3, cargar_numAristas]
  · rw [construirCSR_nodoAIndice, cargar_eq, construirCSR_nodoAIndice]
    unfold trasMapeo conMapeo
    apply mapeo_fold_indice
    simp [hm, nuevo]
  · rw [construirCSR_indiceANodo, t1, hi, List.nil_append, cargar_indiceANodo]

theorem obtenerGrado_recarga (g : GrafoDisperso) (es : List (Int × Int)) (x : Int)
    (hx : EsNodo es x) :
    obtenerGrado (construirCSR (trasMapeo g es) es) x = obtenerGrado (cargar es) x := by
  have hidx : nodoAIdx (construirCSR (trasMapeo g es) es) x = nodoAIdx (cargar es) x :=
    nodoAIdx_trasMapeo g es x hx
  unfold obtenerGrado
  simp only [hidx, (recarga_csr g es).1]

/-- C12, as stated, fails: loading `[(3, 4)]` on the graph already loaded from
`[(1, 2)]` succeeds, yet `getVecinos 3` and `BFS 3 1` answer differently from
the fresh graph loaded from `[(3, 4)]`, and the round trip of identifier 3
yields 1. -/
theorem recarga_contraejemplo :
    (cargarDatos (cargar [(1, 2)]) (some [(3, 4)])).1 = true ∧
    getVecinos (cargarDatos (cargar [(1, 2)]) (some [(3, 4)])).2 3 ≠
      getVecinos (cargar [(3, 4)]) 3 ∧
    BFS (cargarDatos (cargar [(1, 2)]) (some [(3, 4)])).2 3 1 2 ≠
      BFS (cargar [(3, 4)]) 3 1 2 ∧
    idxANodo (cargarDatos (cargar [(1, 2)]) (some [(3, 4)])).2
      (nodoAIdx (cargarDatos (cargar [(1, 2)]) (some [(3, 4)])).2 3) ≠ 3 ∧
    obtenerGrado (cargarDatos (cargar [(1, 2)]) (some [(3, 4)])).2 1 ≠
      obtenerGrado (cargar [(3, 4)]) 1 ∧
    getVecinos (cargarDatos (cargar [(1, 2)]) (some [(3, 4)])).2 3 = [2] ∧
    getVecinos (cargar [(3, 4)]) 3 = [4] := by
  decide

/-- C12, amended: a successful `cargarDatos` returns `true` and, whatever the
prior state, `getNumNodos` and `getNumAristas` answer as on a fresh graph loaded
from the same input, and so do `nodoAIdx` and `obtenerGrado` on the identifiers
of that input.  When `col_indices`, `indiceANodo` and `nodoAIndice` are empty
before the call, as on a freshly constructed graph, the resulting graph is the
fresh graph loaded from that input, so that `getVecinos`, `obtenerGrado` and
`BFS` answer alike on every argument and the identifier round trip holds. -/
theorem recarga_sobre_estado_previo (g : GrafoDisperso) (es : List (Int × Int)) :
    (cargarDatos g (some es)).1 = true ∧
    getNumNodos (cargarDatos g (some es)).2 = getNumNodos (cargar es) ∧
    getNumAristas (cargarDatos g (some es)).2 = getNumAristas (cargar es) ∧
    (∀ x, EsNodo es x →
      nodoAIdx (cargarDatos g (some es)).2 x = nodoAIdx (cargar es) x ∧
      obtenerGrado (cargarDatos g (some es)).2 x = obtenerGrado (cargar es) x) ∧
    (g.col_indices = [] → g.indiceANodo = [] → g.nodoAIndice = [] →
      (cargarDatos g (some es)).2 = cargar es ∧
      (∀ n, getVecinos (cargarDatos g (some es)).2 n = getVecinos (cargar es) n) ∧
      (∀ n, obtenerGrado (cargarDatos g (some es)).2 n = obtenerGrado (cargar es) n) ∧
      (∀ s d pasos, BFS (cargarDatos g (some es)).2 s d pasos = BFS (cargar es) s d pasos) ∧
      (∀ x, EsNodo es x →
        idxANodo (cargarDatos g (some es)).2 (nodoAIdx (cargarDatos g (some es)).2 x) = x)) := by
  rw [cargarDatos_eq]
  obtain ⟨_, t2, t3, _, _, _⟩ := trasMapeo_spec g es
  refine ⟨rfl, ?_, ?_, ?_, ?_⟩
  · show (construirCSR (trasMapeo g es) es).numNodos = (cargar es).numNodos
    rw [construirCSR_numNodos, t2, cargar_numNodos]
  · show (construirCSR (trasMapeo g es) es).numAristas = (cargar es).numAristas
    rw [construirCSR_numAristas, t3, cargar_numAristas]
  · intro x hx
    exact ⟨nodoAIdx_trasMapeo g es x hx, obtenerGrado_recarga g es x hx⟩
  · intro hc hi hm
    have e := recarga_vacia g es hc hi hm
    simp only [e]
    exact ⟨trivial, fun _ => trivial, fun _ => trivial, fun _ _ _ => trivial,
      fun x hx => (nodoAIdx_rango es x hx).2.2⟩

theorem recarga_sobre_estado_previo_witness :
    (cargar []).col_indices = [] ∧ (cargar []).indiceANodo = [] ∧
    (cargar []).nodoAIndice = [] ∧ (cargar []).row_ptr = [0] ∧
    (cargarDatos (cargar []) (some [(3, 4), (4, 3)])).2 = cargar [(3, 4), (4, 3)] :=
  ⟨by decide, by decide, by decide, by decide,
   ((recarga_sobre_estado_previo (cargar []) [(3, 4), (4, 3)]).2.2.2.2
     (by decide) (by decide) (by decide)).1⟩

/-- Effect of the inner loop of `BFS` over a duplicate-free row `l`: exactly the
entries not yet discovered are enqueued and reported, in the order of the row. -/
theorem fold_descubrir (g : GrafoDisperso) (d : Int) (N : Nat) (l : List Int)
    (hnd : l.Nodup) (hr : ∀ w ∈ l, 0 ≤ w ∧ w < (N : Int)) :
    ∀ st : BFSEstado, st.distancia.length = N →
      (l.foldl (descubrir g d) st).cola =
        st.cola ++ l.filter (fun w => vecGet st.distancia w = -1) ∧
      (l.foldl (descubrir g d) st).resultado =
        st.resultado ++
          (l.filter (fun w => vecGet st.distancia w = -1)).map (fun w => (idxANodo g w, d + 1)) ∧
      (l.foldl (descubrir g d) st).distancia.length = N ∧
      ∀ v, 0 ≤ v → vecGet (l.foldl (descubrir g d) st).distancia v =
        if v ∈ l.filter (fun w => vecGet st.distancia w = -1) then d + 1
        else vecGet st.distancia v := by
  induction l with
  | nil =>
    intro st hlen
    simp [hlen]
  | cons w l ih =>
    intro st hlen
    have hnd2 := List.nodup_cons.1 hnd
    have hw := hr w (List.mem_cons_self _ _)
    have hr2 : ∀ v ∈ l, 0 ≤ v ∧ v < (N : Int) := fun v hv => hr v (List.mem_cons_of_mem _ hv)
    simp only [List.foldl_cons]
    by_cases hv : vecGet st.distancia w = -1
    · have hst1 : descubrir g d st w =
          { distancia := vecSet st.distancia w (d + 1), cola := st.cola ++ [w],
            resultado := st.resultado ++ [(idxANodo g w, d + 1)] } := by
        unfold descubrir; rw [if_pos hv]
      rw [hst1]
      have hset : ∀ v, 0 ≤ v → vecGet (vecSet st.distancia w (d + 1)) v =
          if v = w then d + 1 else vecGet st.distancia v := fun v hv0 =>
        vecGet_vecSet_int _ w v _ hw.1 (by rw [hlen]; exact hw.2) hv0
      have hfil : l.filter (fun v => vecGet (vecSet st.distancia w (d + 1)) v = -1) =
          l.filter (fun v => vecGet st.distancia v = -1) := by
        apply List.filter_congr
        intro v hvl
        have hne : v ≠ w := fun e => hnd2.1 (e ▸ hvl)
        rw [hset v (hr2 v hvl).1, if_neg hne]
      have IH := ih hnd2.2 hr2
        { distancia := vecSet st.distancia w (d + 1), cola := st.cola ++ [w],
          resultado := st.resultado ++ [(idxANodo g w, d + 1)] }
        (show (vecSet st.distancia w (d + 1)).length = N by rw [vecSet_length]; exact hlen)
      dsimp only at IH
      rw [hfil] at IH
      obtain ⟨i1, i2, i3, i4⟩ := IH
      have hf : (w :: l).filter (fun v => vecGet st.distancia v = -1) =
          w :: l.filter (fun v => vecGet st.distancia v = -1) := by
        rw [List.filter_cons]; simp [hv]
      rw [hf]
      refine ⟨?_, ?_, i3, ?_⟩
      · rw [i1]; simp
      · rw [i2]; simp
      · intro v hv0
        rw [i4 v hv0, hset v hv0]
        by_cases e : v = w
        · simp [e]
        · simp [e]
    · have hst1 : descubrir g d st w = st := by
        unfold descubrir; rw [if_neg hv]
      rw [hst1]
      have hf : (w :: l).filter (fun v => vecGet st.distancia v = -1) =
          l.filter (fun v => vecGet st.distancia v = -1) := by
        rw [List.filter_cons]; simp [hv]
      rw [hf]
      exact ih hnd2.2 hr2 st hlen

/-- A queue whose entries are all at the depth bound or beyond is drained without
any further change. -/
theorem drenar (g : GrafoDisperso) (D : Int) (k : Nat) :
    ∀ st : BFSEstado, (∀ v ∈ st.cola, D ≤ vecGet st.distancia v) →
      bfsBucle g D (st.cola.length + k) st = some { st with cola := [] } := by
  intro st
  generalize hq : st.cola = q
  induction q generalizing st with
  | nil =>
    intro _
    rw [bfsBucle_nil _ _ _ _ hq]
    cases st
    simp only at hq
    simp [hq]
  | cons u r ih =>
    intro h
    have e : (u :: r).length + k = (r.length + k) + 1 := by simp; omega
    rw [e, bfsBucle_succ _ _ _ _ u r hq, expandir_eq]
    have hu : D ≤ vecGet st.distancia u := h u (List.mem_cons_self _ _)
    dsimp only
    rw [if_pos hu]
    have := ih { st with cola := r } rfl (fun v hv => h v (List.mem_cons_of_mem _ hv))
    exact this

theorem drenar_unico (g : GrafoDisperso) (D : Int) (p : Nat) (st st2 : BFSEstado)
    (h : ∀ v ∈ st.cola, D ≤ vecGet st.distancia v) (hb : bfsBucle g D p st = some st2) :
    st2 = { st with cola := [] } := by
  have h1 := bfsBucle_mas g D p st.cola.length st st2 hb
  have h2 := drenar g D p st h
  rw [Nat.add_comm] at h1
  rw [h1] at h2
  exact Option.some.inj h2

theorem BFS_uno_pasos (es : List (Int × Int)) (start : Int) (hs : EsNodo es start) :
    BFS (cargar es) start 1
        (((vecinosIdx (cargar es) (nodoAIdx (cargar es) start)).filter
          (fun w => w ≠ nodoAIdx (cargar es) start)).length + 1) =
      some ((start, 0) ::
        ((vecinosIdx (cargar es) (nodoAIdx (cargar es) start)).filter
          (fun w => w ≠ nodoAIdx (cargar es) start)).map
            (fun w => (idxANodo (cargar es) w, 1))) := by
  have r := nodoAIdx_rango es start hs
  have hN := numNodos_cargar_toNat es
  have hset : ∀ v, 0 ≤ v → vecGet (vecSet (List.replicate (nodosUnicos es).length (-1))
      (nodoAIdx (cargar es) start) 0) v =
        if v = nodoAIdx (cargar es) start then 0
        else vecGet (List.replicate (nodosUnicos es).length (-1)) v := fun v hv0 =>
    vecGet_vecSet_int _ _ v _ r.1 (by simpa using r.2.1) hv0
  have hadj := vecinosIdx_sorted es _ r.1 r.2.1
  have hrango : ∀ w ∈ vecinosIdx (cargar es) (nodoAIdx (cargar es) start),
      0 ≤ w ∧ w < ((nodosUnicos es).length : Int) := fun w hw =>
    let h := vecinosIdx_arista es _ w r.1 r.2.1 hw
    ⟨h.1, h.2.1⟩
  have hfil : (vecinosIdx (cargar es) (nodoAIdx (cargar es) start)).filter
      (fun w => vecGet (vecSet (List.replicate (nodosUnicos es).length (-1))
        (nodoAIdx (cargar es) start) 0) w = -1) =
      (vecinosIdx (cargar es) (nodoAIdx (cargar es) start)).filter
        (fun w => w ≠ nodoAIdx (cargar es) start) := by
    apply List.filter_congr
    intro w hw
    have hw2 := hrango w hw
    rw [hset w hw2.1]
    by_cases e : w = nodoAIdx (cargar es) start
    · simp [e]
    · rw [if_neg e, vecGet_replicate _ w hw2.1 hw2.2]; simp [e]
  have hfold := fold_descubrir (cargar es) 0 (nodosUnicos es).length
    (vecinosIdx (cargar es) (nodoAIdx (cargar es) start)) hadj.nodup hrango
    { distancia := vecSet (List.replicate (nodosUnicos es).length (-1))
        (nodoAIdx (cargar es) start) 0,
      cola := [], resultado := [(start, 0)] }
    (by simp [vecSet_length])
  dsimp only at hfold
  rw [hfil] at hfold
  obtain ⟨c1, c2, _, c4⟩ := hfold
  unfold BFS
  dsimp only
  rw [if_neg (by omega), hN, bfsBucle_succ _ _ _ _ (nodoAIdx (cargar es) start) [] rfl,
    expandir_eq]
  dsimp only
  have h0 := hset _ r.1
  rw [if_pos rfl] at h0
  rw [h0, if_neg (by omega)]
  generalize (vecinosIdx (cargar es) (nodoAIdx (cargar es) start)).foldl
    (descubrir (cargar es) 0) _ = st2 at c1 c2 c4 ⊢
  rw [List.nil_append] at c1
  have hdr := drenar (cargar es) 1 0 st2 (by
    intro v hv
    rw [c1] at hv
    have hv0 : 0 ≤ v := (hrango v (List.mem_of_mem_filter hv)).1
    rw [c4 v hv0, if_pos hv]
    omega)
  rw [c1, Nat.add_zero] at hdr
  rw [hdr]
  simp [c2]

theorem getVecinos_sin_inicio (es : List (Int × Int)) (start : Int) (hs : EsNodo es start) :
    (getVecinos (cargar es) start).filter (fun n => n ≠ start) =
      ((vecinosIdx (cargar es) (nodoAIdx (cargar es) start)).filter
        (fun w => w ≠ nodoAIdx (cargar es) start)).map (idxANodo (cargar es)) := by
  have r := nodoAIdx_rango es start hs
  rw [getVecinos_eq, if_neg (by omega), List.filter_map]
  congr 1
  apply List.filter_congr
  intro w hw
  have hw2 := vecinosIdx_arista es _ w r.1 r.2.1 hw
  simp only [Function.comp, decide_eq_decide]
  constructor
  · intro h e
    apply h
    rw [e, r.2.2]
  · intro h e
    apply h
    apply idxANodo_inj es w _ hw2.1 hw2.2.1 r.1 r.2.1
    rw [e, r.2.2]

/-- C18: on the graph loaded from any edge list and for every known start node
`s`, `BFS s 1` is `(s, 0)` followed by `(n, 1)` for each `n` of `getVecinos s`
other than `s` itself, in the order of `getVecinos s`. -/
theorem bfs_profundidad_uno (es : List (Int × Int)) (start : Int) (hs : EsNodo es start)
    (pasos : Nat) (hp : getNumNodos (cargar es) ≤ (pasos : Int)) :
    BFS (cargar es) start 1 pasos =
      some ((start, 0) ::
        ((getVecinos (cargar es) start).filter (fun n => n ≠ start)).map (fun n => (n, 1))) := by
  obtain ⟨st, _, h1, _, _⟩ := BFS_inv es start 1 hs pasos (numNodos_toNat es pasos hp)
  have h2 := BFS_uno_pasos es start hs
  have e1 := BFS_mas _ _ _ pasos
    (((vecinosIdx (cargar es) (nodoAIdx (cargar es) start)).filter
      (fun w => w ≠ nodoAIdx (cargar es) start)).length + 1) _ h1
  have e2 := BFS_mas _ _ _ _ pasos _ h2
  rw [Nat.add_comm] at e2
  rw [e1] at e2
  rw [h1, e2, getVecinos_sin_inicio es start hs, List.map_map]
  rfl

theorem bfs_profundidad_uno_witness :
    EsNodo [(1, 2), (1, 3), (2, 3), (3, 1), (1, 1)] 1 ∧
    getNumNodos (cargar [(1, 2), (1, 3), (2, 3), (3, 1), (1, 1)]) ≤ ((3 : Nat) : Int) ∧
    BFS (cargar [(1, 2), (1, 3), (2, 3), (3, 1), (1, 1)]) 1 1 3 =
      some [(1, 0), (2, 1), (3, 1)] :=
  ⟨by decide, by decide,
   bfs_profundidad_uno [(1, 2), (1, 3), (2, 3), (3, 1), (1, 1)] 1 (by decide) 3 (by decide)⟩

theorem descubrir_res (g : GrafoDisperso) (d : Int) (st : BFSEstado) (w : Int) :
    ∃ t, (descubrir g d st w).resultado = st.resultado ++ t := by
  unfold descubrir
  split_ifs
  · exact ⟨_, rfl⟩
  · exact ⟨[], by simp⟩

theorem fold_descubrir_res (g : GrafoDisperso) (d : Int) (l : List Int) (st : BFSEstado) :
    ∃ t, (l.foldl (descubrir g d) st).resultado = st.resultado ++ t := by
  induction l generalizing st with
  | nil => exact ⟨[], by simp⟩
  | cons w l ih =>
    obtain ⟨t1, h1⟩ := descubrir_res g d st w
    obtain ⟨t2, h2⟩ := ih (descubrir g d st w)
    exact ⟨t1 ++ t2, by rw [List.foldl_cons, h2, h1, List.append_assoc]⟩

theorem expandir_res (g : GrafoDisperso) (D : Int) (st : BFSEstado) (u : Int) :
    ∃ t, (expandir g D st u).resultado = st.resultado ++ t := by
  rw [expandir_eq]
  split_ifs
  · exact ⟨[], by simp⟩
  · exact fold_descubrir_res g _ _ st

/-- The loop of `BFS` only ever appends to the result. -/
theorem bfsBucle_res (g : GrafoDisperso) (D : Int) (p : Nat) :
    ∀ st st2 : BFSEstado, bfsBucle g D p st = some st2 →
      ∃ t, st2.resultado = st.resultado ++ t := by
  induction p with
  | zero =>
    intro st st2 h
    cases hc : st.cola with
    | nil =>
      rw [bfsBucle_nil _ _ _ _ hc] at h
      cases h; exact ⟨[], by simp⟩
    | cons u r => rw [bfsBucle_zero _ _ _ u r hc] at h; cases h
  | succ p ih =>
    intro st st2 h
    cases hc : st.cola with
    | nil =>
      rw [bfsBucle_nil _ _ _ _ hc] at h
      cases h; exact ⟨[], by simp⟩
    | cons u r =>
      rw [bfsBucle_succ _ _ _ _ u r hc] at h
      obtain ⟨t1, h1⟩ := expandir_res g D { st with cola := r } u
      obtain ⟨t2, h2⟩ := ih _ _ h
      exact ⟨t1 ++ t2, by rw [h2, h1, List.append_assoc]⟩

/-- Run from the same state with depth bounds `d` and `d + 1`, the loop of `BFS`
yields for `d + 1` the result for `d` followed by further elements. -/
theorem bfsBucle_sincronia (es : List (Int × Int)) (xs d : Int) (pA : Nat) :
    ∀ (st : BFSEstado) (hecho : List Int), Inv es xs d st hecho →
      ∀ (pB : Nat) (stA stB : BFSEstado),
        bfsBucle (cargar es) d pA st = some stA →
        bfsBucle (cargar es) (d + 1) pB st = some stB →
        ∃ t, stB.resultado = stA.resultado ++ t := by
  induction pA with
  | zero =>
    intro st hecho _ pB stA stB hA hB
    cases hc : st.cola with
    | nil =>
      rw [bfsBucle_nil _ _ _ _ hc] at hA hB
      cases hA; cases hB; exact ⟨[], by simp⟩
    | cons u r => rw [bfsBucle_zero _ _ _ u r hc] at hA; cases hA
  | succ pA ih =>
    intro st hecho hinv pB stA stB hA hB
    cases hc : st.cola with
    | nil =>
      rw [bfsBucle_nil _ _ _ _ hc] at hA hB
      cases hA; cases hB; exact ⟨[], by simp⟩
    | cons u r =>
      by_cases hd : vecGet st.distancia u < d
      · cases pB with
        | zero => rw [bfsBucle_zero _ _ _ u r hc] at hB; cases hB
        | succ pB =>
          rw [bfsBucle_succ _ _ _ _ u r hc] at hA hB
          have e : expandir (cargar es) (d + 1) { st with cola := r } u =
              expandir (cargar es) d { st with cola := r } u := by
            rw [expandir_eq, expandir_eq]
            dsimp only
            rw [if_neg (by omega), if_neg (by omega)]
          rw [e] at hB
          exact ih _ (hecho ++ [u]) (inv_expandir es xs d st hecho u r hinv hc) pB stA stB hA hB
      · have hb := hinv.base
        rw [hc] at hb
        have hall : ∀ v ∈ st.cola, d ≤ vecGet st.distancia v := by
          intro v hv
          rw [hc] at hv
          have := desde_u _ _ _ _ _ hb.creciente hv
          omega
        have hA2 := drenar_unico (cargar es) d _ st stA hall hA
        obtain ⟨t, ht⟩ := bfsBucle_res (cargar es) (d + 1) pB st stB hB
        refine ⟨t, ?_⟩
        rw [ht, hA2]

theorem BFS_bucle (g : GrafoDisperso) (xs D : Int) (pasos : Nat) (h : nodoAIdx g xs ≠ -1) :
    BFS g xs D pasos =
      (bfsBucle g D pasos
        { distancia := vecSet (List.replicate g.numNodos.toNat (-1)) (nodoAIdx g xs) 0,
          cola := [nodoAIdx g xs],
          resultado := [(xs, 0)] }).map (fun s => s.resultado) := by
  unfold BFS
  dsimp only
  rw [if_neg h]

/-- C20: on the graph loaded from any edge list, for every known start node and
every depth bound `d` (in particular every `d ≥ 0`), the sequence `BFS start d`
is an initial segment of `BFS start (d + 1)`: the latter is the former followed
by further elements. -/
theorem bfs_mas_profundidad_agrega (es : List (Int × Int)) (start d : Int)
    (hs : EsNodo es start) (pasos : Nat) (hp : getNumNodos (cargar es) ≤ (pasos : Int)) :
    ∃ r t, BFS (cargar es) start d pasos = some r ∧
      BFS (cargar es) start (d + 1) pasos = some (r ++ t) := by
  have r0 := nodoAIdx_rango es start hs
  have hp2 := numNodos_toNat es pasos hp
  obtain ⟨stA, _, hA, _, _⟩ := bfsBucle_total es start d pasos _ []
    (inv_inicial es start d hs) (by simpa using hp2)
  obtain ⟨stB, _, hB, _, _⟩ := bfsBucle_total es start (d + 1) pasos _ []
    (inv_inicial es start (d + 1) hs) (by simpa using hp2)
  obtain ⟨t, ht⟩ := bfsBucle_sincronia es start d pasos _ [] (inv_inicial es start d hs)
    pasos stA stB hA hB
  refine ⟨stA.resultado, t, ?_, ?_⟩
  · rw [BFS_bucle _ _ _ _ (by omega), hA]; rfl
  · rw [BFS_bucle _ _ _ _ (by omega), hB, ← ht]; rfl

theorem bfs_mas_profundidad_agrega_witness :
    EsNodo [(1, 2), (2, 3), (3, 4), (1, 5)] 1 ∧
    getNumNodos (cargar [(1, 2), (2, 3), (3, 4), (1, 5)]) ≤ ((5 : Nat) : Int) ∧
    ∃ r t, BFS (cargar [(1, 2), (2, 3), (3, 4), (1, 5)]) 1 1 5 = some r ∧
      BFS (cargar [(1, 2), (2, 3), (3, 4), (1, 5)]) 1 (1 + 1) 5 = some (r ++ t) :=
  ⟨by decide, by decide,
   bfs_mas_profundidad_agrega [(1, 2), (2, 3), (3, 4), (1, 5)] 1 1 (by decide) 5 (by decide)⟩

end Grafo
